import Mathlib

/-!
Shallow embedding of the FrostySpider core (game engine, history reducer and
adaptive layout calculator) and proofs of the frozen specification claims.

Sources embedded:
* `src/lib/types.ts`       — card/game data model
* `src/lib/gameEngine.ts`  — deck construction, move legality, move/deal
  execution, completion sweep
* `src/contexts/GameContext.tsx` — undo/redo history reducer
* `src/lib/layoutCalculator.ts`  — smart stack-offset computation

Conventions: JavaScript numbers used by the layout calculator are modelled as
exact rationals (`ℚ`); `Date.now()` is modelled as an explicit `now : Nat`
argument; `Math.random()` inside the Fisher–Yates shuffle is modelled as an
explicit `rand : Nat → Nat` choice function (taken modulo the allowed range);
`null` returns are modelled with `Option`.
-/

namespace FrostySpider

/-- `Suit` from types.ts: 'spades' | 'hearts' | 'diamonds' | 'clubs'. -/
inductive Suit where
  | spades | hearts | diamonds | clubs
deriving DecidableEq

/-- `Rank` from types.ts: 'A' | '2' | ... | '10' | 'J' | 'Q' | 'K'. -/
inductive Rank where
  | A | r2 | r3 | r4 | r5 | r6 | r7 | r8 | r9 | r10 | J | Q | K
deriving DecidableEq

/-- `RANK_VALUES` from types.ts: integer value 1..13 of each rank. -/
def RANK_VALUES : Rank → Nat
  | .A => 1 | .r2 => 2 | .r3 => 3 | .r4 => 4 | .r5 => 5 | .r6 => 6 | .r7 => 7
  | .r8 => 8 | .r9 => 9 | .r10 => 10 | .J => 11 | .Q => 12 | .K => 13

/-- `RANKS` from types.ts (ascending order used by deck construction). -/
def RANKS : List Rank :=
  [.A, .r2, .r3, .r4, .r5, .r6, .r7, .r8, .r9, .r10, .J, .Q, .K]

/-- `SUITS` from types.ts. -/
def SUITS : List Suit := [.spades, .hearts, .diamonds, .clubs]

/-- `Card` from types.ts: {id, suit, rank, faceUp}. -/
structure Card where
  id : String
  suit : Suit
  rank : Rank
  faceUp : Bool
deriving DecidableEq

/-- The `suitCount` field of `GameSettings`, typed `1 | 2 | 4` in types.ts. -/
inductive SuitCount where
  | one | two | four
deriving DecidableEq

/-- Numeric value of a `SuitCount`. -/
def SuitCount.val : SuitCount → Nat
  | .one => 1 | .two => 2 | .four => 4

/-- `GameSettings` from types.ts. -/
structure GameSettings where
  suitCount : SuitCount
  soundEnabled : Bool
  hapticEnabled : Bool
  immersiveEnabled : Bool
  animationsEnabled : Bool
  autoComplete : Bool
  showTimer : Bool
deriving DecidableEq

/-- `DEFAULT_SETTINGS` from types.ts. -/
def DEFAULT_SETTINGS : GameSettings :=
  { suitCount := .one, soundEnabled := true, hapticEnabled := true,
    immersiveEnabled := true, animationsEnabled := true, autoComplete := true,
    showTimer := true }

/-- `GameState` from types.ts: the full immutable snapshot.
`startTime : Option Nat` models `number | null`. -/
structure GameState where
  tableau : List (List Card)
  stock : List Card
  completed : List (List Card)
  moves : Nat
  startTime : Option Nat
  isWon : Bool
  settings : GameSettings
deriving DecidableEq

/-! ## Deck construction (`gameEngine.ts`, `createDeck`) -/

/-- The suits used for a given suit-count setting (`suitsToUse` in
`createDeck`). -/
def suitsToUse : SuitCount → List Suit
  | .one => [.spades]
  | .two => [.spades, .hearts]
  | .four => SUITS

/-- `decksPerSuit` in `createDeck`: 8 for one suit, 4 for two, 2 for four,
so the deck always totals 104 cards. -/
def decksPerSuit : SuitCount → Nat
  | .one => 8 | .two => 4 | .four => 2

/-- The id string produced by `generateCardId` for the n-th generated card
(the module counter is reset to 0 by `initializeGame`, so the n-th card of a
fresh deck gets id `card_n`, counting from 1). -/
def generateCardId (n : Nat) : String := "card_" ++ toString n

/-- `createDeck` from gameEngine.ts: `decksPerSuit` repetitions of
(suit × rank) in the nested-loop order, all face-down, ids `card_1`,
`card_2`, ... in generation order. -/
def createDeck (suitCount : SuitCount) : List Card :=
  let protos :=
    (List.range (decksPerSuit suitCount)).flatMap fun _ =>
      (suitsToUse suitCount).flatMap fun suit =>
        RANKS.map fun rank => (suit, rank)
  protos.enum.map fun p =>
    { id := generateCardId (p.1 + 1), suit := p.2.1, rank := p.2.2,
      faceUp := false }

/-! ## Fisher–Yates shuffle (`gameEngine.ts`, `shuffleDeck`) -/

/-- Swap the elements at positions `i` and `j` of a list (the array
destructuring swap in `shuffleDeck`); out-of-range positions leave the list
unchanged, matching in-range use in the source. -/
def swapCards (l : List Card) (i j : Nat) : List Card :=
  match l.get? i, l.get? j with
  | some a, some b => (l.set i b).set j a
  | _, _ => l

/-- The loop of `shuffleDeck`, counting `i` down; at each step the random
index `j = Math.floor(Math.random() * (i + 1))` is modelled as
`rand i % (i + 1)`. -/
def shuffleSteps (rand : Nat → Nat) : Nat → List Card → List Card
  | 0, l => l
  | i + 1, l => shuffleSteps rand i (swapCards l (i + 1) (rand (i + 1) % (i + 2)))

/-- `shuffleDeck` from gameEngine.ts (Fisher–Yates), with the random draws
supplied by `rand`. -/
def shuffleDeck (rand : Nat → Nat) (cards : List Card) : List Card :=
  shuffleSteps rand (cards.length - 1) cards

/-! ## Game initialization (`gameEngine.ts`, `initializeGame`) -/

/-- Mark the `count` cards dealt to one column: a copy of each card with
`faceUp := (i == count - 1)` (only the last dealt card face-up). -/
def dealMark (count : Nat) (cards : List Card) : List Card :=
  cards.enum.map fun p => { p.2 with faceUp := decide (p.1 = count - 1) }

/-- The dealing loop of `initializeGame` over the given column indices:
column `col` takes `6` cards if `col < 4` else `5`, consuming the deck from
the front. -/
def dealTableauGo : List Nat → List Card → List (List Card)
  | [], _ => []
  | col :: rest, deck =>
    let cardCount := if col < 4 then 6 else 5
    dealMark cardCount (deck.take cardCount)
      :: dealTableauGo rest (deck.drop cardCount)

/-- Deal 54 cards of the shuffled deck into the 10 tableau columns. -/
def dealTableau (deck : List Card) : List (List Card) :=
  dealTableauGo (List.range 10) deck

/-- `initializeGame` from gameEngine.ts: shuffle a fresh deck, deal 54 cards
into 10 columns (6 to columns 0..3, 5 to columns 4..9, last card of each
face-up), remaining 50 cards become the face-down stock. -/
def initializeGame (rand : Nat → Nat) (settings : GameSettings) : GameState :=
  let deck := shuffleDeck rand (createDeck settings.suitCount)
  { tableau := dealTableau deck,
    stock := (deck.drop 54).map fun card => { card with faceUp := false },
    completed := [],
    moves := 0,
    startTime := none,
    isWon := false,
    settings := settings }

/-! ## Sequence and move validation (`gameEngine.ts`) -/

/-- The pairwise loop of `isValidSequence`: every adjacent pair must be two
face-up cards of the same suit descending by exactly one rank. -/
def validChain : Card → List Card → Bool
  | _, [] => true
  | current, next :: rest =>
    current.faceUp && next.faceUp && decide (current.suit = next.suit) &&
      decide (RANK_VALUES current.rank = RANK_VALUES next.rank + 1) &&
      validChain next rest

/-- `isValidSequence` from gameEngine.ts. -/
def isValidSequence (cards : List Card) : Bool :=
  match cards with
  | [] => true
  | [c] => c.faceUp
  | c :: rest => validChain c rest

/-- `canMoveToColumn` from gameEngine.ts: false on an empty or face-down-led
run; any run may go to an empty column; otherwise the target's top card must
be exactly one rank above the moving run's first card (suit unconstrained). -/
def canMoveToColumn (cards targetColumn : List Card) : Bool :=
  match cards with
  | [] => false
  | movingCard :: _ =>
    if !movingCard.faceUp then false
    else
      match targetColumn.getLast? with
      | none => true
      | some topCard =>
        decide (RANK_VALUES topCard.rank = RANK_VALUES movingCard.rank + 1)

/-- `getValidSequence` from gameEngine.ts: the suffix of `column` from
`startIndex`, provided it is in range, starts face-up and is a valid
sequence. -/
def getValidSequence (column : List Card) (startIndex : Nat) :
    Option (List Card) :=
  if startIndex < column.length then
    let sequence := column.drop startIndex
    match sequence with
    | [] => none
    | c :: _ =>
      if !c.faceUp then none
      else if !isValidSequence sequence then none
      else some sequence
  else none

/-! ## Complete-sequence detection (`gameEngine.ts`, `hasCompleteSequence`) -/

/-- The inner `for (let j = 0; j < 12; j++)` validation loop of
`hasCompleteSequence`: each pair head must have suit `s` and descend by one
rank onto its successor.  Note the suit of the final (13th) card is never
compared, exactly as in the source. -/
def seqCheck (s : Suit) : List Card → Bool
  | c :: d :: rest =>
    decide (c.suit = s) &&
      decide (RANK_VALUES c.rank = RANK_VALUES d.rank + 1) &&
      seqCheck s (d :: rest)
  | _ => true

/-- Validity of one 13-card window in `hasCompleteSequence`: all face-up,
first rank K, last rank A, and the `seqCheck` pair loop. -/
def isCompleteWindow (sequence : List Card) : Bool :=
  match sequence with
  | [] => false
  | c :: _ =>
    sequence.all (fun card => card.faceUp) &&
      decide (c.rank = Rank.K) &&
      (match sequence.getLast? with
       | some l => decide (l.rank = Rank.A)
       | none => false) &&
      seqCheck c.suit sequence

/-- The scanning loop of `hasCompleteSequence`: try start index `i`, then
`i - 1`, ... down to 0, returning the first valid window found. -/
def hcsLoop (column : List Card) : Nat → Option (Nat × List Card)
  | 0 =>
    if isCompleteWindow ((column.drop 0).take 13) then
      some (0, (column.drop 0).take 13)
    else none
  | i + 1 =>
    if isCompleteWindow ((column.drop (i + 1)).take 13) then
      some (i + 1, (column.drop (i + 1)).take 13)
    else hcsLoop column i

/-- `hasCompleteSequence` from gameEngine.ts: requires ≥ 13 cards, then scans
start indices from `column.length - 13` down to `0` and returns the first
valid 13-card window (with its start index). -/
def hasCompleteSequence (column : List Card) : Option (Nat × List Card) :=
  if column.length < 13 then none
  else hcsLoop column (column.length - 13)

/-! ## Move execution (`gameEngine.ts`) -/

/-- Flip the new top card of a column face-up if it exists and is face-down
(the post-move / post-splice flip in `executeMove` and the completion
sweep). -/
def flipLast (col : List Card) : List Card :=
  match col.getLast? with
  | none => col
  | some topCard =>
    if topCard.faceUp then col
    else col.dropLast ++ [{ topCard with faceUp := true }]

/-- `state.startTime || Date.now()`: JavaScript `||` replaces both `null` and
the falsy `0` with the current time. -/
def orNow (startTime : Option Nat) (now : Nat) : Nat :=
  match startTime with
  | none => now
  | some t => if t = 0 then now else t

/-- The completion-sweep step for one column index: if the column has a
complete sequence, splice out those 13 cards (appending them to the
completed piles) and flip the newly exposed top card. -/
def sweepStep (acc : List (List Card) × List (List Card) × Bool) (col : Nat) :
    List (List Card) × List (List Card) × Bool :=
  let (tableau, completed, changed) := acc
  match hasCompleteSequence (tableau.getD col []) with
  | none => (tableau, completed, changed)
  | some (start, cards) =>
    let column := tableau.getD col []
    (tableau.set col (flipLast (column.take start ++ column.drop (start + 13))),
      completed ++ [cards], true)

/-- `checkAndRemoveCompleteSequences` from gameEngine.ts: one pass over
columns 0..9; if nothing changed the input state is returned unchanged,
otherwise the win flag is recomputed as `completed.length == 8`. -/
def checkAndRemoveCompleteSequences (state : GameState) : GameState :=
  let result := (List.range 10).foldl sweepStep (state.tableau, state.completed, false)
  if !result.2.2 then state
  else
    { state with
      tableau := result.1,
      completed := result.2.1,
      isWon := decide (result.2.1.length = 8) }

/-- `executeMove` from gameEngine.ts, with `Date.now()` passed in as `now`.
Rejects same-column moves, invalid sequences and illegal destinations;
on success detaches the suffix, appends it to the destination, flips the
newly exposed source top card, bumps `moves`, sets `startTime` and runs the
completion sweep. -/
def executeMove (now : Nat) (state : GameState) (fromCol cardIndex toCol : Nat) :
    Option GameState :=
  if fromCol = toCol then none
  else
    let column := state.tableau.getD fromCol []
    match getValidSequence column cardIndex with
    | none => none
    | some sequence =>
      if !canMoveToColumn sequence (state.tableau.getD toCol []) then none
      else
        let afterRemove := state.tableau.set fromCol (column.take cardIndex)
        let afterAdd :=
          afterRemove.set toCol (afterRemove.getD toCol [] ++ sequence)
        let newTableau := afterAdd.set fromCol (flipLast (afterAdd.getD fromCol []))
        some (checkAndRemoveCompleteSequences
          { state with
            tableau := newTableau,
            moves := state.moves + 1,
            startTime := some (orNow state.startTime now) })

/-- The dealing loop of `dealFromStock`: for each column index in order, if
the stock is non-empty move its head (face-up) onto that column. -/
def dealLoop (acc : List (List Card) × List Card) (col : Nat) :
    List (List Card) × List Card :=
  let (tableau, stock) := acc
  match stock with
  | [] => (tableau, stock)
  | card :: rest =>
    (tableau.set col (tableau.getD col [] ++ [{ card with faceUp := true }]), rest)

/-- `dealFromStock` from gameEngine.ts, with `Date.now()` passed in as `now`.
Rejects if the stock is empty or any column is empty; otherwise deals one
stock card face-up to each of columns 0..9 (skipping the append once the
stock runs dry), bumps `moves` and runs the completion sweep. -/
def dealFromStock (now : Nat) (state : GameState) : Option GameState :=
  if state.stock.length = 0 then none
  else if state.tableau.any (fun col => col.length = 0) then none
  else
    let result := (List.range 10).foldl dealLoop (state.tableau, state.stock)
    some (checkAndRemoveCompleteSequences
      { state with
        tableau := result.1,
        stock := result.2,
        moves := state.moves + 1,
        startTime := some (orNow state.startTime now) })

/-- `cloneGameState` from gameEngine.ts: a deep structural copy, which on
immutable values is the identity rebuild of the record. -/
def cloneGameState (state : GameState) : GameState :=
  { tableau := state.tableau,
    stock := state.stock,
    completed := state.completed,
    moves := state.moves,
    startTime := state.startTime,
    isWon := state.isWon,
    settings := state.settings }

/-! ## History reducer (`GameContext.tsx`) -/

/-- `Partial<GameSettings>` used by the UPDATE_SETTINGS action. -/
structure PartialSettings where
  suitCount : Option SuitCount := none
  soundEnabled : Option Bool := none
  hapticEnabled : Option Bool := none
  immersiveEnabled : Option Bool := none
  animationsEnabled : Option Bool := none
  autoComplete : Option Bool := none
  showTimer : Option Bool := none

/-- The spread merge `{...state.current.settings, ...action.settings}`. -/
def mergeSettings (base : GameSettings) (patch : PartialSettings) : GameSettings :=
  { suitCount := patch.suitCount.getD base.suitCount,
    soundEnabled := patch.soundEnabled.getD base.soundEnabled,
    hapticEnabled := patch.hapticEnabled.getD base.hapticEnabled,
    immersiveEnabled := patch.immersiveEnabled.getD base.immersiveEnabled,
    animationsEnabled := patch.animationsEnabled.getD base.animationsEnabled,
    autoComplete := patch.autoComplete.getD base.autoComplete,
    showTimer := patch.showTimer.getD base.showTimer }

/-- The reducer's `Action` type from GameContext.tsx. -/
inductive Action where
  | SET_STATE (state : GameState)
  | MOVE (fromCol cardIndex toCol : Nat)
  | DEAL
  | UNDO
  | REDO
  | NEW_GAME (settings : Option GameSettings)
  | UPDATE_SETTINGS (settings : PartialSettings)

/-- `StateWithHistory` from GameContext.tsx. -/
structure StateWithHistory where
  current : GameState
  history : List GameState
  future : List GameState

/-- The `reducer` from GameContext.tsx, with `Date.now()` and the shuffle's
random draws passed in as `now` / `rand`.  Successful MOVE/DEAL actions push
a clone of the old current state onto `history` and clear `future`; UNDO and
REDO move along those stacks. -/
def reducer (now : Nat) (rand : Nat → Nat) (state : StateWithHistory)
    (action : Action) : StateWithHistory :=
  match action with
  | .SET_STATE s => { state with current := s }
  | .MOVE fromCol cardIndex toCol =>
    match executeMove now state.current fromCol cardIndex toCol with
    | none => state
    | some newState =>
      { current := newState,
        history := state.history ++ [cloneGameState state.current],
        future := [] }
  | .DEAL =>
    match dealFromStock now state.current with
    | none => state
    | some newState =>
      { current := newState,
        history := state.history ++ [cloneGameState state.current],
        future := [] }
  | .UNDO =>
    match state.history.getLast? with
    | none => state
    | some previousState =>
      { current := previousState,
        history := state.history.dropLast,
        future := cloneGameState state.current :: state.future }
  | .REDO =>
    match state.future with
    | [] => state
    | nextState :: rest =>
      { current := nextState,
        history := state.history ++ [cloneGameState state.current],
        future := rest }
  | .NEW_GAME settings? =>
    { current := initializeGame rand (settings?.getD state.current.settings),
      history := [],
      future := [] }
  | .UPDATE_SETTINGS patch =>
    { state with
      current :=
        { state.current with
          settings := mergeSettings state.current.settings patch } }

/-! ## Layout calculator (`layoutCalculator.ts`) -/

/-- `StackOffsets` from layoutCalculator.ts, offsets in exact pixels. -/
structure StackOffsets where
  faceDownOffset : ℚ
  faceUpOffset : ℚ
  needsScroll : Bool
deriving DecidableEq

/-- `MIN_FACEDOWN_PEEK` from layoutCalculator.ts. -/
def MIN_FACEDOWN_PEEK : ℚ := 4

/-- `MIN_FACEUP_PEEK` from layoutCalculator.ts. -/
def MIN_FACEUP_PEEK : ℚ := 12

/-- `IDEAL_FACEDOWN_PEEK` from layoutCalculator.ts. -/
def IDEAL_FACEDOWN_PEEK : ℚ := 8

/-- `IDEAL_FACEUP_PEEK` from layoutCalculator.ts. -/
def IDEAL_FACEUP_PEEK : ℚ := 22

/-- `faceDownCount` in `calculateSmartOverlap`: face-down cards among all but
the last card of the column. -/
def faceDownCount (cards : List Card) : Nat :=
  cards.dropLast.countP fun c => !c.faceUp

/-- `faceUpCount` in `calculateSmartOverlap`: face-up cards among all but the
last card of the column. -/
def faceUpCount (cards : List Card) : Nat :=
  cards.dropLast.countP fun c => c.faceUp

/-- `calculateSmartOverlap` from layoutCalculator.ts: chooses per-card peek
offsets so the stack compresses toward the available height, degrading from
the IDEAL peeks through interpolation, then scaled-and-clamped minimums. -/
def calculateSmartOverlap (cards : List Card) (cardHeight maxStackHeight : ℚ) :
    StackOffsets :=
  let cardCount := cards.length
  if cardCount ≤ 1 then
    { faceDownOffset := IDEAL_FACEDOWN_PEEK, faceUpOffset := IDEAL_FACEUP_PEEK,
      needsScroll := false }
  else
    let fdc : ℚ := faceDownCount cards
    let fuc : ℚ := faceUpCount cards
    let availableSpace := maxStackHeight - cardHeight
    let totalCardsToOffset := fdc + fuc
    if availableSpace ≤ 0 ∨ totalCardsToOffset = 0 then
      let absoluteMinPeek := max 2 (availableSpace / max totalCardsToOffset 1)
      { faceDownOffset := absoluteMinPeek, faceUpOffset := absoluteMinPeek,
        needsScroll := false }
    else
      let idealTotal := fdc * IDEAL_FACEDOWN_PEEK + fuc * IDEAL_FACEUP_PEEK
      if idealTotal ≤ availableSpace then
        { faceDownOffset := IDEAL_FACEDOWN_PEEK,
          faceUpOffset := IDEAL_FACEUP_PEEK, needsScroll := false }
      else
        let minTotal := fdc * MIN_FACEDOWN_PEEK + fuc * MIN_FACEUP_PEEK
        if minTotal ≥ availableSpace then
          let scale := availableSpace / minTotal
          { faceDownOffset := max 2 (MIN_FACEDOWN_PEEK * scale),
            faceUpOffset := max 3 (MIN_FACEUP_PEEK * scale),
            needsScroll := false }
        else
          let t := (availableSpace - minTotal) / (idealTotal - minTotal)
          { faceDownOffset :=
              MIN_FACEDOWN_PEEK + t * (IDEAL_FACEDOWN_PEEK - MIN_FACEDOWN_PEEK),
            faceUpOffset :=
              MIN_FACEUP_PEEK + t * (IDEAL_FACEUP_PEEK - MIN_FACEUP_PEEK),
            needsScroll := false }

/-- `calculateStackHeight` from layoutCalculator.ts: the full card height plus
one peek offset per covered card. -/
def calculateStackHeight (cards : List Card) (cardHeight : ℚ)
    (offsets : StackOffsets) : ℚ :=
  match cards with
  | [] => 0
  | [_] => cardHeight
  | _ =>
    cards.dropLast.foldl
      (fun h c =>
        h + if c.faceUp then offsets.faceUpOffset else offsets.faceDownOffset)
      cardHeight

/-! ## Card conservation bookkeeping -/

/-- The identity of a card ignoring its face-up flag: `(id, suit, rank)`. -/
def cardKey (c : Card) : String × Suit × Rank := (c.id, c.suit, c.rank)

/-- The multiset of card keys held by one column. -/
def colKeys (col : List Card) : Multiset (String × Suit × Rank) :=
  (col.map cardKey : List _)

/-- The multiset of card keys held by a whole tableau. -/
def tabKeys (tableau : List (List Card)) : Multiset (String × Suit × Rank) :=
  (tableau.map colKeys).sum

/-- All card keys of a state: tableau, stock and completed piles together. -/
def stateKeys (state : GameState) : Multiset (String × Suit × Rank) :=
  tabKeys state.tableau + colKeys state.stock + tabKeys state.completed

/-- The states reachable from a fresh game by the engine's mutating
operations (moves, deals and completion sweeps). -/
inductive Reachable : GameState → Prop where
  | init (rand : Nat → Nat) (settings : GameSettings) :
      Reachable (initializeGame rand settings)
  | move (s s' : GameState) (now fromCol cardIndex toCol : Nat) :
      toCol < 10 → Reachable s →
      executeMove now s fromCol cardIndex toCol = some s' → Reachable s'
  | deal (s s' : GameState) (now : Nat) :
      Reachable s → dealFromStock now s = some s' → Reachable s'
  | sweep (s : GameState) :
      Reachable s → Reachable (checkAndRemoveCompleteSequences s)

/-! ## Abstract form of one peek offset

`peekValue minP idealP floorP M I A` is the value `calculateSmartOverlap`
assigns to one of the two offsets of a column with at least two cards, where
`M`/`I` are the column's minimum/ideal peek totals and `A` the available
space.  For the face-down offset `(minP, idealP, floorP) = (4, 8, 2)`, for
the face-up offset `(12, 22, 3)`; the degenerate branch yields `2` for both.
A bridging lemma below proves this matches `calculateSmartOverlap`. -/
def peekValue (minP idealP floorP M I A : ℚ) : ℚ :=
  if A ≤ 0 then 2
  else if I ≤ A then idealP
  else if M ≥ A then max floorP (minP * (A / M))
  else minP + (A - M) / (I - M) * (idealP - minP)

/-! ## Concrete fixtures used by witnesses and counterexamples -/

/-- A throwaway card used as the `getD` fallback in statements. -/
def dummyCard : Card :=
  { id := "", suit := .spades, rank := .A, faceUp := false }

/-- Build a concrete card. -/
def mkCard (n : Nat) (s : Suit) (r : Rank) (up : Bool) : Card :=
  { id := generateCardId n, suit := s, rank := r, faceUp := up }

/-- The thirteen ranks in descending order K, Q, ..., 2, A. -/
def descRanks : List Rank :=
  [.K, .Q, .J, .r10, .r9, .r8, .r7, .r6, .r5, .r4, .r3, .r2, .A]

/-- A full descending spades run K..A, all face-up, ids from `base + 1`. -/
def runSpades (base : Nat) : List Card :=
  descRanks.enum.map fun p => mkCard (base + p.1 + 1) .spades p.2 true

/-- K♠ Q♠ ... 2♠ followed by A♥, all face-up: descending and face-up, but
the final ace has a different suit. -/
def mixedCol : List Card :=
  (descRanks.take 12).enum.map (fun p => mkCard (p.1 + 1) .spades p.2 true)
    ++ [mkCard 13 .hearts .A true]

/-- Two complete face-up spades runs stacked in one column: valid complete
windows start at indices 0 and 13. -/
def doubleRun : List Card := runSpades 0 ++ runSpades 13

/-- A two-card column (one face-down, one face-up). -/
def twoCards : List Card :=
  [mkCard 1 .spades .K false, mkCard 2 .spades .Q true]

/-- Ten singleton columns (all face-up fives). -/
def tenSingles : List (List Card) :=
  (List.range 10).map fun i => [mkCard (i + 1) .spades .r5 true]

/-- A state whose stock holds exactly one card while all ten columns are
non-empty (so a deal succeeds but cannot pop ten cards). -/
def oneStockState : GameState :=
  { tableau := tenSingles,
    stock := [mkCard 20 .hearts .r9 false],
    completed := [], moves := 0, startTime := none, isWon := false,
    settings := DEFAULT_SETTINGS }

/-- A state with a legal move (2♠ from column 0 onto 3♠ on column 1), a
non-empty stock and no empty column, so both a move and a deal succeed. -/
def mvState : GameState :=
  { tableau :=
      [[mkCard 1 .spades .r2 true], [mkCard 2 .spades .r3 true]] ++
        (List.range 8).map fun i => [mkCard (3 + i) .hearts .r7 true],
    stock :=
      (List.range 10).map fun i => mkCard (30 + i) .clubs .r9 false,
    completed := [], moves := 0, startTime := none, isWon := false,
    settings := DEFAULT_SETTINGS }

/-- The state produced by the witness move on `mvState`. -/
def mvMoved : GameState := (executeMove 5 mvState 0 0 1).getD mvState

/-- The state produced by a witness deal on `mvState`. -/
def mvDealt : GameState := (dealFromStock 5 mvState).getD mvState

/-- The history wrapper around `mvState` used by the history-reducer
witness. -/
def mvHistory : StateWithHistory :=
  { current := mvState, history := [], future := [] }

/-! # Theorems -/

/-- Every branch of `calculateSmartOverlap` returns `needsScroll := false`:
the calculator never requests the scroll fallback. -/
theorem smartOverlap_needsScroll (cards : List Card) (ch msh : ℚ) :
    (calculateSmartOverlap cards ch msh).needsScroll = false := by
  unfold calculateSmartOverlap
  dsimp only
  split_ifs <;> rfl

/-- C5: `canMoveToColumn` is false on an empty or face-down-led run, true
unconditionally onto an empty column (no King required), and otherwise true
exactly when the target's top card is one rank above the moving run's first
card, with no suit constraint. -/
theorem claim_C5_canMoveToColumn (movingCards targetColumn : List Card) :
    canMoveToColumn movingCards targetColumn = true ↔
      ∃ c rest, movingCards = c :: rest ∧ c.faceUp = true ∧
        (targetColumn = [] ∨
          ∃ top, targetColumn.getLast? = some top ∧
            RANK_VALUES top.rank = RANK_VALUES c.rank + 1) := by
  cases movingCards with
  | nil => simp [canMoveToColumn]
  | cons c rest =>
    simp only [canMoveToColumn]
    cases hfu : c.faceUp with
    | false => simp [hfu]
    | true =>
      cases htc : targetColumn.getLast? with
      | none =>
        rw [List.getLast?_eq_none_iff] at htc
        simp [htc, hfu]
      | some top =>
        have hne : targetColumn ≠ [] := by
          intro h
          rw [h] at htc
          simp at htc
        simp [htc, hfu, hne]

/-- C8 counterexample: a two-card column with `maxStackHeight - cardHeight
≤ 0` gets offsets of exactly 2px, but `needsScroll` is `false`, not `true`
as the claim states. -/
theorem claim_C8_counterexample :
    twoCards.length = 2 ∧ (50 : ℚ) - 100 ≤ 0 ∧
      (calculateSmartOverlap twoCards 100 50).needsScroll = false ∧
      ¬(calculateSmartOverlap twoCards 100 50).needsScroll = true := by
  refine ⟨rfl, by norm_num, smartOverlap_needsScroll _ _ _, ?_⟩
  rw [smartOverlap_needsScroll]
  simp

/-- In the degenerate branch (non-positive available space, at least two
cards) the calculator returns the constant 2px offsets. -/
theorem smartOverlap_degenerate_eq (cards : List Card) (ch msh : ℚ)
    (h2 : 2 ≤ cards.length) (hA : msh - ch ≤ 0) :
    calculateSmartOverlap cards ch msh =
      { faceDownOffset := 2, faceUpOffset := 2, needsScroll := false } := by
  have hn : ¬ cards.length ≤ 1 := by omega
  have hD : (0 : ℚ) <
      max ((faceDownCount cards : ℚ) + (faceUpCount cards : ℚ)) 1 :=
    lt_of_lt_of_le one_pos (le_max_right _ _)
  have hdiv : (msh - ch) /
      max ((faceDownCount cards : ℚ) + (faceUpCount cards : ℚ)) 1 ≤ 0 :=
    div_nonpos_iff.mpr (Or.inr ⟨hA, le_of_lt hD⟩)
  have hkey : max (2 : ℚ) ((msh - ch) /
      max ((faceDownCount cards : ℚ) + (faceUpCount cards : ℚ)) 1) = 2 :=
    max_eq_left (le_trans hdiv (by norm_num))
  simp [calculateSmartOverlap, hn, hA, hkey]

/-- C8 (amended): for a column of at least two cards with non-positive
available space, both offsets are scaled to exactly the 2px absolute
minimum (hence at least 2px), and `needsScroll` is `false` — the degenerate
case is not flagged for an external scroll fallback. -/
theorem claim_C8_degenerate (cards : List Card) (ch msh : ℚ)
    (h2 : 2 ≤ cards.length) (hA : msh - ch ≤ 0) :
    (calculateSmartOverlap cards ch msh).faceDownOffset = 2 ∧
      (calculateSmartOverlap cards ch msh).faceUpOffset = 2 ∧
      (2 : ℚ) ≤ (calculateSmartOverlap cards ch msh).faceDownOffset ∧
      (calculateSmartOverlap cards ch msh).needsScroll = false := by
  rw [smartOverlap_degenerate_eq cards ch msh h2 hA]
  norm_num

/-- The deck always holds 104 cards, whatever the suit-count setting. -/
theorem createDeck_length (sc : SuitCount) : (createDeck sc).length = 104 := by
  cases sc <;> rfl

/-- Swapping two positions preserves the length of a list. -/
theorem swapCards_length (l : List Card) (i j : Nat) :
    (swapCards l i j).length = l.length := by
  unfold swapCards
  cases l.get? i <;> cases l.get? j <;> simp

/-- Each Fisher–Yates step preserves the deck's length. -/
theorem shuffleSteps_length (rand : Nat → Nat) :
    ∀ (n : Nat) (l : List Card), (shuffleSteps rand n l).length = l.length := by
  intro n
  induction n with
  | zero => intro l; rfl
  | succ m ih =>
    intro l
    rw [shuffleSteps, ih, swapCards_length]

/-- The shuffle is length-preserving. -/
theorem shuffleDeck_length (rand : Nat → Nat) (cards : List Card) :
    (shuffleDeck rand cards).length = cards.length :=
  shuffleSteps_length rand _ cards

/-- Marking preserves the number of cards in a dealt column. -/
theorem dealMark_length (count : Nat) (l : List Card) :
    (dealMark count l).length = l.length := by
  simp [dealMark]

/-- Pointwise description of a marked column. -/
theorem dealMark_getElem? (count : Nat) (l : List Card) (j : Nat) :
    (dealMark count l)[j]? =
      l[j]?.map fun c => { c with faceUp := decide (j = count - 1) } := by
  simp only [dealMark, List.enum_eq_enumFrom, List.getElem?_map,
    List.getElem?_enumFrom]
  cases l[j]? <;> simp

/-- In a marked column, every position strictly before `count - 1` is
face-down. -/
theorem dealMark_faceUp (count : Nat) (l : List Card) (j : Nat)
    (h : j < l.length) :
    ((dealMark count l).getD j dummyCard).faceUp = decide (j = count - 1) := by
  rw [List.getD_eq_getElem?_getD, dealMark_getElem?, List.getElem?_eq_getElem h]
  simp

/-- The last card of a fully marked column is face-up. -/
theorem dealMark_getLast (count : Nat) (l : List Card)
    (hl : l.length = count) (hc : 0 < count) :
    ((dealMark count l).getLast?).map Card.faceUp = some true := by
  have hlen : (dealMark count l).length = count := by
    rw [dealMark_length, hl]
  rw [List.getLast?_eq_getElem?, hlen, dealMark_getElem?,
    List.getElem?_eq_getElem (by omega : count - 1 < l.length)]
  simp

/-- The dealing loop produces one column per requested column index. -/
theorem dealTableauGo_length (cols : List Nat) (deck : List Card) :
    (dealTableauGo cols deck).length = cols.length := by
  induction cols generalizing deck with
  | nil => rfl
  | cons c rest ih => simp [dealTableauGo, ih]

/-- Shape of each dealt column: `6` cards for column indices below 4 and `5`
otherwise, all face-down except the face-up last card — provided the deck
has enough cards for the whole deal. -/
theorem dealTableauGo_facts (cols : List Nat) (deck : List Card)
    (h : (cols.map fun c => if c < 4 then 6 else 5).sum ≤ deck.length) :
    ∀ k, k < cols.length →
      ((dealTableauGo cols deck).getD k []).length =
          (if cols.getD k 0 < 4 then 6 else 5) ∧
        (∀ j, j + 1 < ((dealTableauGo cols deck).getD k []).length →
          (((dealTableauGo cols deck).getD k []).getD j dummyCard).faceUp
            = false) ∧
        (((dealTableauGo cols deck).getD k []).getLast?).map Card.faceUp
          = some true := by
  induction cols generalizing deck with
  | nil => intro k hk; simp at hk
  | cons col rest ih =>
    intro k hk
    have hcount : (if col < 4 then 6 else 5) ≤ deck.length := by
      rw [List.map_cons, List.sum_cons] at h
      split <;> split at h <;> omega
    cases k with
    | zero =>
      have htake : (deck.take (if col < 4 then 6 else 5)).length =
          (if col < 4 then 6 else 5) := by
        rw [List.length_take]
        omega
      have hpos : 0 < (if col < 4 then 6 else 5) := by split <;> omega
      refine ⟨?_, ?_, ?_⟩
      · simp only [dealTableauGo, List.getD_cons_zero, List.getD_cons_zero]
        rw [dealMark_length, htake]
      · intro j hj
        simp only [dealTableauGo, List.getD_cons_zero] at hj ⊢
        rw [dealMark_length, htake] at hj
        rw [dealMark_faceUp _ _ _ (by omega)]
        simp only [decide_eq_false_iff_not]
        omega
      · simp only [dealTableauGo, List.getD_cons_zero]
        exact dealMark_getLast _ _ htake hpos
    | succ k' =>
      have hrest : (rest.map fun c => if c < 4 then 6 else 5).sum ≤
          (deck.drop (if col < 4 then 6 else 5)).length := by
        rw [List.length_drop]
        rw [List.map_cons, List.sum_cons] at h
        omega
      have := ih (deck.drop (if col < 4 then 6 else 5)) hrest k' (by
        simpa using hk)
      simpa [dealTableauGo] using this

/-- C9: a freshly initialized game (for any shuffle outcome and any
settings, whose suit count is one of 1, 2 or 4 by construction) has columns
0–3 of 6 cards and columns 4–9 of 5 cards, each all face-down below a
face-up top card, a 50-card face-down stock, no completed piles, zero moves,
no start time and no win flag. -/
theorem claim_C9_initializeGame (rand : Nat → Nat) (settings : GameSettings) :
    (initializeGame rand settings).tableau.length = 10 ∧
      (∀ i, i < 10 →
        ((initializeGame rand settings).tableau.getD i []).length =
          (if i < 4 then 6 else 5)) ∧
      (∀ i, i < 10 →
        ∀ j, j + 1 < ((initializeGame rand settings).tableau.getD i []).length →
          (((initializeGame rand settings).tableau.getD i []).getD j
            dummyCard).faceUp = false) ∧
      (∀ i, i < 10 →
        (((initializeGame rand settings).tableau.getD i []).getLast?).map
          Card.faceUp = some true) ∧
      (initializeGame rand settings).stock.length = 50 ∧
      (∀ c ∈ (initializeGame rand settings).stock, c.faceUp = false) ∧
      (initializeGame rand settings).completed = [] ∧
      (initializeGame rand settings).moves = 0 ∧
      (initializeGame rand settings).startTime = none ∧
      (initializeGame rand settings).isWon = false := by
  have hdeck :
      (shuffleDeck rand (createDeck settings.suitCount)).length = 104 := by
    rw [shuffleDeck_length, createDeck_length]
  have hsum : ((List.range 10).map fun c =>
      if c < 4 then 6 else 5).sum ≤
      (shuffleDeck rand (createDeck settings.suitCount)).length := by
    rw [hdeck]; decide
  have hfacts := dealTableauGo_facts (List.range 10) _ hsum
  have hgetD : ∀ i, i < 10 → (List.range 10).getD i 0 = i := by
    intro i hi
    rw [List.getD_eq_getElem?_getD, List.getElem?_range hi]
    rfl
  refine ⟨?_, ?_, ?_, ?_, ?_, ?_, rfl, rfl, rfl, rfl⟩
  · show (dealTableau _).length = 10
    rw [dealTableau, dealTableauGo_length]
    rfl
  · intro i hi
    have := (hfacts i (by simpa using hi)).1
    rwa [hgetD i hi] at this
  · intro i hi j hj
    exact (hfacts i (by simpa using hi)).2.1 j hj
  · intro i hi
    exact (hfacts i (by simpa using hi)).2.2
  · show ((initializeGame rand settings).stock).length = 50
    simp only [initializeGame]
    rw [List.length_map, List.length_drop, hdeck]
  · intro c hc
    simp only [initializeGame, List.mem_map] at hc
    obtain ⟨c', _, rfl⟩ := hc
    rfl

/-- Face-down and face-up counts split the covered cards of a column. -/
theorem countP_faceUp_sum (l : List Card) :
    l.countP (fun c => !c.faceUp) + l.countP (fun c => c.faceUp) = l.length := by
  induction l with
  | nil => rfl
  | cons c l ih =>
    rw [List.countP_cons, List.countP_cons]
    cases hc : c.faceUp <;> simp [hc] <;> omega

/-- `faceDownCount` and `faceUpCount` together count every covered card. -/
theorem counts_sum (cards : List Card) :
    faceDownCount cards + faceUpCount cards = cards.dropLast.length :=
  countP_faceUp_sum cards.dropLast

/-- Bridge from `calculateSmartOverlap` to the abstract `peekValue` form, for
columns with at least two cards. -/
theorem smartOverlap_eq_peekValue (cards : List Card) (ch msh : ℚ)
    (h2 : 2 ≤ cards.length) :
    (calculateSmartOverlap cards ch msh).faceDownOffset =
        peekValue MIN_FACEDOWN_PEEK IDEAL_FACEDOWN_PEEK 2
          ((faceDownCount cards : ℚ) * MIN_FACEDOWN_PEEK +
            (faceUpCount cards : ℚ) * MIN_FACEUP_PEEK)
          ((faceDownCount cards : ℚ) * IDEAL_FACEDOWN_PEEK +
            (faceUpCount cards : ℚ) * IDEAL_FACEUP_PEEK)
          (msh - ch) ∧
      (calculateSmartOverlap cards ch msh).faceUpOffset =
        peekValue MIN_FACEUP_PEEK IDEAL_FACEUP_PEEK 3
          ((faceDownCount cards : ℚ) * MIN_FACEDOWN_PEEK +
            (faceUpCount cards : ℚ) * MIN_FACEUP_PEEK)
          ((faceDownCount cards : ℚ) * IDEAL_FACEDOWN_PEEK +
            (faceUpCount cards : ℚ) * IDEAL_FACEUP_PEEK)
          (msh - ch) := by
  have hn : ¬ cards.length ≤ 1 := by omega
  have hT : (1 : ℚ) ≤ (faceDownCount cards : ℚ) + (faceUpCount cards : ℚ) := by
    have h := counts_sum cards
    rw [List.length_dropLast] at h
    have : 1 ≤ faceDownCount cards + faceUpCount cards := by omega
    exact_mod_cast this
  have hT0 : (faceDownCount cards : ℚ) + (faceUpCount cards : ℚ) ≠ 0 := by
    intro h; rw [h] at hT; norm_num at hT
  constructor <;>
  · unfold calculateSmartOverlap peekValue
    dsimp only
    rw [if_neg hn]
    by_cases hA : msh - ch ≤ 0
    · rw [if_pos (Or.inl hA), if_pos hA]
      have hDpos : (0 : ℚ) ≤
          max ((faceDownCount cards : ℚ) + (faceUpCount cards : ℚ)) 1 :=
        le_trans (by norm_num) (le_max_right _ _)
      have hdiv : (msh - ch) /
          max ((faceDownCount cards : ℚ) + (faceUpCount cards : ℚ)) 1 ≤ 0 :=
        div_nonpos_iff.mpr (Or.inr ⟨hA, hDpos⟩)
      have hkey : max (2 : ℚ) ((msh - ch) /
          max ((faceDownCount cards : ℚ) + (faceUpCount cards : ℚ)) 1) = 2 :=
        max_eq_left (le_trans hdiv (by norm_num))
      simp [hkey]
    · have hcond : ¬ (msh - ch ≤ 0 ∨
          (faceDownCount cards : ℚ) + (faceUpCount cards : ℚ) = 0) := by
        push_neg
        exact ⟨lt_of_not_le hA, hT0⟩
      rw [if_neg hcond, if_neg hA]
      split_ifs <;> rfl

/-- The abstract offset value is monotone in the available space. -/
theorem peekValue_mono (minP idealP floorP M I A1 A2 : ℚ)
    (hf2 : 2 ≤ floorP) (hfm : floorP ≤ minP) (hmi : minP ≤ idealP)
    (hM : 0 < M) (hMI : M < I) (hA : A1 ≤ A2) :
    peekValue minP idealP floorP M I A1 ≤ peekValue minP idealP floorP M I A2 := by
  have hIM : (0 : ℚ) < I - M := by linarith
  have hminP : (0 : ℚ) ≤ minP := by linarith
  have hd : (0 : ℚ) ≤ idealP - minP := by linarith
  unfold peekValue
  split_ifs with h1 h2 h3 h4 h5 h6 h7 h8 h9 h10
  all_goals try rfl
  all_goals try linarith
  · exact le_trans hf2 (le_max_left _ _)
  · have ht2 : (0 : ℚ) ≤ (A2 - M) / (I - M) * (idealP - minP) :=
      mul_nonneg (div_nonneg (by linarith) hIM.le) hd
    linarith
  · exact max_le (by linarith)
      (le_trans (mul_le_of_le_one_right hminP
        ((div_le_one hM).mpr (by linarith))) (by linarith))
  · exact max_le_max le_rfl
      (mul_le_mul_of_nonneg_left ((div_le_div_iff_of_pos_right hM).mpr hA) hminP)
  · have ht2 : (0 : ℚ) ≤ (A2 - M) / (I - M) * (idealP - minP) :=
      mul_nonneg (div_nonneg (by linarith) hIM.le) hd
    have hs1 : minP * (A1 / M) ≤ minP :=
      mul_le_of_le_one_right hminP ((div_le_one hM).mpr (by linarith))
    exact max_le (by linarith) (by linarith)
  · have ht1 : (A1 - M) / (I - M) ≤ 1 := (div_le_one hIM).mpr (by linarith)
    have := mul_le_of_le_one_left hd ht1
    linarith
  · have ht12 : (A1 - M) / (I - M) ≤ (A2 - M) / (I - M) :=
      (div_le_div_iff_of_pos_right hIM).mpr (by linarith)
    have := mul_le_mul_of_nonneg_right ht12 hd
    linarith

/-- A column of at least two cards has at least one covered card. -/
theorem counts_cast_ge_one (cards : List Card) (h2 : 2 ≤ cards.length) :
    (1 : ℚ) ≤ (faceDownCount cards : ℚ) + (faceUpCount cards : ℚ) := by
  have h := counts_sum cards
  rw [List.length_dropLast] at h
  have : 1 ≤ faceDownCount cards + faceUpCount cards := by omega
  exact_mod_cast this

/-- C7: for a fixed column and card height, both returned offsets are
monotone (non-decreasing) in `maxStackHeight`: shrinking the height budget
never increases an offset, so degradation cannot oscillate. -/
theorem claim_C7_monotone (cards : List Card) (ch m1 m2 : ℚ) (h : m1 ≤ m2) :
    (calculateSmartOverlap cards ch m1).faceDownOffset ≤
        (calculateSmartOverlap cards ch m2).faceDownOffset ∧
      (calculateSmartOverlap cards ch m1).faceUpOffset ≤
        (calculateSmartOverlap cards ch m2).faceUpOffset := by
  by_cases h2 : 2 ≤ cards.length
  · obtain ⟨hfd1, hfu1⟩ := smartOverlap_eq_peekValue cards ch m1 h2
    obtain ⟨hfd2, hfu2⟩ := smartOverlap_eq_peekValue cards ch m2 h2
    have hone := counts_cast_ge_one cards h2
    have hfdc : (0 : ℚ) ≤ (faceDownCount cards : ℚ) := Nat.cast_nonneg _
    have hfuc : (0 : ℚ) ≤ (faceUpCount cards : ℚ) := Nat.cast_nonneg _
    rw [hfd1, hfd2, hfu1, hfu2]
    simp only [MIN_FACEDOWN_PEEK, MIN_FACEUP_PEEK, IDEAL_FACEDOWN_PEEK,
      IDEAL_FACEUP_PEEK]
    constructor
    · exact peekValue_mono _ _ _ _ _ _ _ (by norm_num) (by norm_num)
        (by norm_num) (by linarith) (by linarith) (by linarith)
    · exact peekValue_mono _ _ _ _ _ _ _ (by norm_num) (by norm_num)
        (by norm_num) (by linarith) (by linarith) (by linarith)
  · have hn : cards.length ≤ 1 := by omega
    simp [calculateSmartOverlap, hn]

/-- C7 witness: a concrete monotone pair of height budgets. -/
theorem claim_C7_monotone_witness :
    (calculateSmartOverlap twoCards 100 50).faceDownOffset ≤
        (calculateSmartOverlap twoCards 100 60).faceDownOffset ∧
      (calculateSmartOverlap twoCards 100 50).faceUpOffset ≤
        (calculateSmartOverlap twoCards 100 60).faceUpOffset :=
  claim_C7_monotone twoCards 100 50 60 (by norm_num)

/-- The height loop of `calculateStackHeight`, expressed through the covered
face-up/face-down counts. -/
theorem stackHeight_foldl (offs : StackOffsets) (l : List Card) (acc : ℚ) :
    l.foldl
        (fun h c =>
          h + if c.faceUp then offs.faceUpOffset else offs.faceDownOffset)
        acc =
      acc + (l.countP (fun c => c.faceUp) : ℚ) * offs.faceUpOffset +
        (l.countP (fun c => !c.faceUp) : ℚ) * offs.faceDownOffset := by
  induction l generalizing acc with
  | nil => simp
  | cons c l ih =>
    rw [List.foldl_cons, ih, List.countP_cons, List.countP_cons]
    cases hc : c.faceUp <;> simp [hc] <;> ring

/-- `calculateStackHeight` of a non-empty column is the card height plus one
peek per covered card of the matching orientation. -/
theorem calculateStackHeight_eq (cards : List Card) (ch : ℚ)
    (offs : StackOffsets) (h : cards ≠ []) :
    calculateStackHeight cards ch offs =
      ch + (faceUpCount cards : ℚ) * offs.faceUpOffset +
        (faceDownCount cards : ℚ) * offs.faceDownOffset := by
  match cards with
  | [c] =>
    simp [calculateStackHeight, faceUpCount, faceDownCount]
  | c :: d :: rest =>
    show (c :: d :: rest).dropLast.foldl _ ch = _
    rw [stackHeight_foldl]
    rfl

/-- Both abstract offsets stay within `[2, idealP]` whenever the branch data
is well-formed. -/
theorem peekValue_bounds (minP idealP floorP M I A : ℚ)
    (hf2 : 2 ≤ floorP) (hfm : floorP ≤ minP) (hmi : minP ≤ idealP)
    (hM : 0 < M) (hMI : M < I) :
    2 ≤ peekValue minP idealP floorP M I A ∧
      peekValue minP idealP floorP M I A ≤ idealP := by
  have hIM : (0 : ℚ) < I - M := by linarith
  have hminP : (0 : ℚ) ≤ minP := by linarith
  have hd : (0 : ℚ) ≤ idealP - minP := by linarith
  unfold peekValue
  split_ifs with h1 h2 h3
  · exact ⟨le_refl _, by linarith⟩
  · exact ⟨by linarith, le_refl _⟩
  · refine ⟨le_trans hf2 (le_max_left _ _), max_le (by linarith) ?_⟩
    exact le_trans (mul_le_of_le_one_right hminP
      ((div_le_one hM).mpr (by linarith))) (by linarith)
  · have ht0 : (0 : ℚ) ≤ (A - M) / (I - M) * (idealP - minP) :=
      mul_nonneg (div_nonneg (by linarith) hIM.le) hd
    have ht1 : (A - M) / (I - M) ≤ 1 := (div_le_one hIM).mpr (by linarith)
    have := mul_le_of_le_one_left hd ht1
    exact ⟨by linarith, by linarith⟩

/-- When the minimum peek total fits in the available space, the weighted sum
of the two abstract offsets never exceeds the available space. -/
theorem peekValue_fit (fdc fuc A : ℚ) (hfdc : 0 ≤ fdc) (hfuc : 0 ≤ fuc)
    (h1 : 1 ≤ fdc + fuc) (hfit : fdc * 4 + fuc * 12 ≤ A) :
    fdc * peekValue 4 8 2 (fdc * 4 + fuc * 12) (fdc * 8 + fuc * 22) A +
      fuc * peekValue 12 22 3 (fdc * 4 + fuc * 12) (fdc * 8 + fuc * 22) A
      ≤ A := by
  have hM : (0 : ℚ) < fdc * 4 + fuc * 12 := by linarith
  have hMI : fdc * 4 + fuc * 12 < fdc * 8 + fuc * 22 := by linarith
  have hA0 : ¬ A ≤ 0 := by push_neg; linarith
  unfold peekValue
  rw [if_neg hA0, if_neg hA0]
  by_cases hI : fdc * 8 + fuc * 22 ≤ A
  · rw [if_pos hI, if_pos hI]
    linarith
  · rw [if_neg hI, if_neg hI]
    by_cases hMA : fdc * 4 + fuc * 12 ≥ A
    · rw [if_pos hMA, if_pos hMA]
      have hAM : A = fdc * 4 + fuc * 12 := le_antisymm hMA hfit
      rw [hAM, div_self (ne_of_gt hM)]
      simp only [mul_one]
      rw [max_eq_right (by norm_num : (2 : ℚ) ≤ 4),
        max_eq_right (by norm_num : (3 : ℚ) ≤ 12)]
    · rw [if_neg hMA, if_neg hMA]
      have hden : fdc * 8 + fuc * 22 - (fdc * 4 + fuc * 12) ≠ 0 := by
        intro hz; rw [sub_eq_zero] at hz; linarith
      have hcancel :
          (A - (fdc * 4 + fuc * 12)) /
              (fdc * 8 + fuc * 22 - (fdc * 4 + fuc * 12)) *
              (fdc * 8 + fuc * 22 - (fdc * 4 + fuc * 12)) =
            A - (fdc * 4 + fuc * 12) := div_mul_cancel₀ _ hden
      have hexp :
          fdc * (4 + (A - (fdc * 4 + fuc * 12)) /
                (fdc * 8 + fuc * 22 - (fdc * 4 + fuc * 12)) * (8 - 4)) +
              fuc * (12 + (A - (fdc * 4 + fuc * 12)) /
                (fdc * 8 + fuc * 22 - (fdc * 4 + fuc * 12)) * (22 - 12)) =
            fdc * 4 + fuc * 12 +
              (A - (fdc * 4 + fuc * 12)) /
                (fdc * 8 + fuc * 22 - (fdc * 4 + fuc * 12)) *
                (fdc * 8 + fuc * 22 - (fdc * 4 + fuc * 12)) := by
        ring
      rw [hexp, hcancel]
      linarith

/-- C1 counterexample: with `cardHeight = 100` and `maxStackHeight = 50 > 0`
(a degenerate but positive budget), the offsets returned for a two-card
column yield stack height `102 > 50`, violating the claimed fit invariant
far beyond any floating-point tolerance. -/
theorem claim_C1_counterexample :
    (0 : ℚ) < 50 ∧
      calculateStackHeight twoCards 100 (calculateSmartOverlap twoCards 100 50)
        = 102 ∧
      ¬ calculateStackHeight twoCards 100
          (calculateSmartOverlap twoCards 100 50) ≤ 50 := by
  have h : calculateStackHeight twoCards 100
      (calculateSmartOverlap twoCards 100 50) = 102 := by
    rw [smartOverlap_degenerate_eq twoCards 100 50 (by decide) (by norm_num)]
    norm_num [calculateStackHeight, twoCards, mkCard]
  refine ⟨by norm_num, h, ?_⟩
  rw [h]; norm_num

/-- C1 (amended): for any positive `maxStackHeight` the returned offsets
always lie between 2px and the IDEAL peeks; and whenever the column's
minimum peek total fits in the available space
(`4·faceDownCount + 12·faceUpCount ≤ maxStackHeight − cardHeight`) the
resulting stack height is at most `maxStackHeight` (exactly, in exact
rational arithmetic).  Without that fit condition the scaled 2px/3px clamps
can overshoot the budget, as the counterexample shows. -/
theorem claim_C1_fit (cards : List Card) (ch msh : ℚ) (hpos : 0 < msh) :
    ((2 : ℚ) ≤ (calculateSmartOverlap cards ch msh).faceDownOffset ∧
      (calculateSmartOverlap cards ch msh).faceDownOffset ≤
        IDEAL_FACEDOWN_PEEK ∧
      (2 : ℚ) ≤ (calculateSmartOverlap cards ch msh).faceUpOffset ∧
      (calculateSmartOverlap cards ch msh).faceUpOffset ≤
        IDEAL_FACEUP_PEEK) ∧
    ((faceDownCount cards : ℚ) * MIN_FACEDOWN_PEEK +
        (faceUpCount cards : ℚ) * MIN_FACEUP_PEEK ≤ msh - ch →
      calculateStackHeight cards ch (calculateSmartOverlap cards ch msh) ≤
        msh) := by
  by_cases h2 : 2 ≤ cards.length
  · obtain ⟨hfd, hfu⟩ := smartOverlap_eq_peekValue cards ch msh h2
    have hone := counts_cast_ge_one cards h2
    have hfdc : (0 : ℚ) ≤ (faceDownCount cards : ℚ) := Nat.cast_nonneg _
    have hfuc : (0 : ℚ) ≤ (faceUpCount cards : ℚ) := Nat.cast_nonneg _
    have hM : (0 : ℚ) < (faceDownCount cards : ℚ) * 4 +
        (faceUpCount cards : ℚ) * 12 := by linarith
    have hMI : (faceDownCount cards : ℚ) * 4 + (faceUpCount cards : ℚ) * 12 <
        (faceDownCount cards : ℚ) * 8 + (faceUpCount cards : ℚ) * 22 := by
      linarith
    constructor
    · rw [hfd, hfu]
      simp only [MIN_FACEDOWN_PEEK, MIN_FACEUP_PEEK, IDEAL_FACEDOWN_PEEK,
        IDEAL_FACEUP_PEEK] at *
      have hb1 := peekValue_bounds 4 8 2 _ _ (msh - ch) (by norm_num)
        (by norm_num) (by norm_num) hM hMI
      have hb2 := peekValue_bounds 12 22 3 _ _ (msh - ch) (by norm_num)
        (by norm_num) (by norm_num) hM hMI
      exact ⟨hb1.1, hb1.2, hb2.1, hb2.2⟩
    · intro hfit
      have hne : cards ≠ [] := by
        intro hnil; rw [hnil] at h2; simp at h2
      rw [calculateStackHeight_eq cards ch _ hne, hfd, hfu]
      simp only [MIN_FACEDOWN_PEEK, MIN_FACEUP_PEEK, IDEAL_FACEDOWN_PEEK,
        IDEAL_FACEUP_PEEK] at *
      have := peekValue_fit (faceDownCount cards : ℚ) (faceUpCount cards : ℚ)
        (msh - ch) hfdc hfuc hone hfit
      linarith
  · have hn : cards.length ≤ 1 := by omega
    have hoff : calculateSmartOverlap cards ch msh =
        { faceDownOffset := IDEAL_FACEDOWN_PEEK,
          faceUpOffset := IDEAL_FACEUP_PEEK, needsScroll := false } := by
      unfold calculateSmartOverlap
      rw [if_pos hn]
    constructor
    · rw [hoff]
      refine ⟨?_, le_refl _, ?_, le_refl _⟩ <;>
        simp [IDEAL_FACEDOWN_PEEK, IDEAL_FACEUP_PEEK] <;> norm_num
    · intro hfit
      match cards with
      | [] =>
        show (0 : ℚ) ≤ msh
        linarith
      | [c] =>
        show ch ≤ msh
        have hz : faceDownCount [c] = 0 := rfl
        have hz2 : faceUpCount [c] = 0 := rfl
        rw [hz, hz2] at hfit
        simp at hfit
        linarith
      | c :: d :: rest => simp at hn

/-- C1 witness: a two-card column whose minimum peeks fit comfortably. -/
theorem claim_C1_fit_witness :
    ((2 : ℚ) ≤ (calculateSmartOverlap twoCards 10 100).faceDownOffset ∧
      (calculateSmartOverlap twoCards 10 100).faceDownOffset ≤
        IDEAL_FACEDOWN_PEEK ∧
      (2 : ℚ) ≤ (calculateSmartOverlap twoCards 10 100).faceUpOffset ∧
      (calculateSmartOverlap twoCards 10 100).faceUpOffset ≤
        IDEAL_FACEUP_PEEK) ∧
      calculateStackHeight twoCards 10 (calculateSmartOverlap twoCards 10 100)
        ≤ 100 :=
  ⟨(claim_C1_fit twoCards 10 100 (by norm_num)).1,
    (claim_C1_fit twoCards 10 100 (by norm_num)).2 (by
      rw [show faceDownCount twoCards = 1 from rfl,
        show faceUpCount twoCards = 0 from rfl]
      simp [MIN_FACEDOWN_PEEK, MIN_FACEUP_PEEK]
      norm_num)⟩

/-- C8 witness: a concrete degenerate column. -/
theorem claim_C8_degenerate_witness :
    (calculateSmartOverlap twoCards 100 50).faceDownOffset = 2 ∧
      (calculateSmartOverlap twoCards 100 50).faceUpOffset = 2 ∧
      (2 : ℚ) ≤ (calculateSmartOverlap twoCards 100 50).faceDownOffset ∧
      (calculateSmartOverlap twoCards 100 50).needsScroll = false :=
  claim_C8_degenerate twoCards 100 50 (by decide) (by norm_num)

/-- A structural clone of an immutable snapshot is the snapshot itself. -/
theorem cloneGameState_eq (state : GameState) : cloneGameState state = state :=
  rfl

/-- C6: for every state-with-history, after *any* successful MOVE action
(and, independently, after *any* successful DEAL action), the action empties
the entire redo (`future`) stack, UNDO restores a state structurally equal
to the pre-action snapshot, and REDO after that UNDO restores the
post-action snapshot.  The two actions are quantified separately, so each
part applies whenever that one action succeeds. -/
theorem claim_C6_history (now : Nat) (rand : Nat → Nat) (s : StateWithHistory)
    (fromCol cardIndex toCol : Nat) :
    (∀ g, executeMove now s.current fromCol cardIndex toCol = some g →
      (reducer now rand s (.MOVE fromCol cardIndex toCol)).future = [] ∧
        (reducer now rand
          (reducer now rand s (.MOVE fromCol cardIndex toCol))
          .UNDO).current = s.current ∧
        (reducer now rand
          (reducer now rand
            (reducer now rand s (.MOVE fromCol cardIndex toCol)) .UNDO)
          .REDO).current = g) ∧
    (∀ g, dealFromStock now s.current = some g →
      (reducer now rand s .DEAL).future = [] ∧
        (reducer now rand (reducer now rand s .DEAL) .UNDO).current =
          s.current ∧
        (reducer now rand (reducer now rand (reducer now rand s .DEAL) .UNDO)
          .REDO).current = g) := by
  constructor
  · intro g hm
    refine ⟨?_, ?_, ?_⟩ <;>
      simp [reducer, hm, cloneGameState_eq, List.getLast?_concat]
  · intro g hd
    refine ⟨?_, ?_, ?_⟩ <;>
      simp [reducer, hd, cloneGameState_eq, List.getLast?_concat]

/-- C6 witness: the move part applied to the concrete move 2♠→3♠ and the
deal part applied to a concrete deal, each discharged on `mvHistory`. -/
theorem claim_C6_history_witness :
    ((reducer 5 (fun _ => 0) mvHistory (.MOVE 0 0 1)).future = [] ∧
      (reducer 5 (fun _ => 0) (reducer 5 (fun _ => 0) mvHistory (.MOVE 0 0 1))
        .UNDO).current = mvHistory.current ∧
      (reducer 5 (fun _ => 0)
        (reducer 5 (fun _ => 0)
          (reducer 5 (fun _ => 0) mvHistory (.MOVE 0 0 1)) .UNDO)
        .REDO).current = mvMoved) ∧
    ((reducer 5 (fun _ => 0) mvHistory .DEAL).future = [] ∧
      (reducer 5 (fun _ => 0) (reducer 5 (fun _ => 0) mvHistory .DEAL)
        .UNDO).current = mvHistory.current ∧
      (reducer 5 (fun _ => 0)
        (reducer 5 (fun _ => 0) (reducer 5 (fun _ => 0) mvHistory .DEAL)
          .UNDO) .REDO).current = mvDealt) :=
  ⟨(claim_C6_history 5 (fun _ => 0) mvHistory 0 0 1).1 mvMoved rfl,
    (claim_C6_history 5 (fun _ => 0) mvHistory 0 0 1).2 mvDealt rfl⟩

/-- C3: `executeMove` (a total function returning an `Option`, never an
exception) returns `null` exactly when the source and destination coincide,
no valid movable sequence starts at `cardIndex`, or that sequence is not
legal onto `toCol`; rejection leaves the (immutable) input state untouched.
On success the result is the completion sweep of the state with the suffix
detached from `fromCol` (its newly exposed top card flipped face-up if it
was face-down), appended to `toCol`, and `moves` incremented by exactly 1. -/
theorem claim_C3_executeMove (now : Nat) (s : GameState)
    (fromCol cardIndex toCol : Nat)
    (hf : fromCol < s.tableau.length) (ht : toCol < s.tableau.length) :
    (executeMove now s fromCol cardIndex toCol = none ↔
      fromCol = toCol ∨
        ¬ ∃ seq,
          getValidSequence (s.tableau.getD fromCol []) cardIndex = some seq ∧
            canMoveToColumn seq (s.tableau.getD toCol []) = true) ∧
    (∀ s', executeMove now s fromCol cardIndex toCol = some s' →
      ∃ seq,
        getValidSequence (s.tableau.getD fromCol []) cardIndex = some seq ∧
          canMoveToColumn seq (s.tableau.getD toCol []) = true ∧
          s' = checkAndRemoveCompleteSequences
            { s with
              tableau :=
                (s.tableau.set toCol (s.tableau.getD toCol [] ++ seq)).set
                  fromCol
                  (flipLast ((s.tableau.getD fromCol []).take cardIndex)),
              moves := s.moves + 1,
              startTime := some (orNow s.startTime now) }) := by
  by_cases hft : fromCol = toCol
  · constructor
    · simp [executeMove, hft]
    · intro s' hs'
      rw [executeMove, if_pos hft] at hs'
      exact absurd hs' (by simp)
  · cases hgvs : getValidSequence (s.tableau.getD fromCol []) cardIndex with
    | none =>
      constructor
      · rw [executeMove, if_neg hft]
        dsimp only
        rw [hgvs]
        simp [hgvs]
      · intro s' hs'
        rw [executeMove, if_neg hft] at hs'
        dsimp only at hs'
        rw [hgvs] at hs'
        exact absurd hs' (by simp)
    | some seq =>
      cases hcan : canMoveToColumn seq (s.tableau.getD toCol []) with
      | false =>
        constructor
        · rw [executeMove, if_neg hft]
          dsimp only
          rw [hgvs]
          dsimp only
          rw [hcan]
          simp [hgvs, hcan, hft]
          simpa using hcan
        · intro s' hs'
          rw [executeMove, if_neg hft] at hs'
          dsimp only at hs'
          rw [hgvs] at hs'
          dsimp only at hs'
          rw [hcan] at hs'
          simp at hs'
      | true =>
        have h1 : (s.tableau.set fromCol
            ((s.tableau.getD fromCol []).take cardIndex)).getD toCol [] =
            s.tableau.getD toCol [] := by
          simp only [List.getD_eq_getElem?_getD]
          rw [List.getElem?_set_ne hft]
        have h2 : ((s.tableau.set fromCol
              ((s.tableau.getD fromCol []).take cardIndex)).set toCol
              (s.tableau.getD toCol [] ++ seq)).getD fromCol [] =
            (s.tableau.getD fromCol []).take cardIndex := by
          simp only [List.getD_eq_getElem?_getD]
          rw [List.getElem?_set_ne (Ne.symm hft), List.getElem?_set_self hf]
          rfl
        have h3 : ((s.tableau.set fromCol
              ((s.tableau.getD fromCol []).take cardIndex)).set toCol
              (s.tableau.getD toCol [] ++ seq)).set fromCol
              (flipLast ((s.tableau.getD fromCol []).take cardIndex)) =
            (s.tableau.set toCol (s.tableau.getD toCol [] ++ seq)).set fromCol
              (flipLast ((s.tableau.getD fromCol []).take cardIndex)) := by
          rw [List.set_comm _ _ _ hft, List.set_set]
        constructor
        · rw [executeMove, if_neg hft]
          dsimp only
          rw [hgvs]
          dsimp only
          simp only [hcan, Bool.not_true, Bool.false_eq_true, if_false]
          constructor
          · intro h
            exact absurd h (by simp)
          · intro h
            rcases h with h | h
            · exact absurd h hft
            · exact absurd ⟨seq, rfl, hcan⟩ h
        · intro s' hs'
          refine ⟨seq, rfl, hcan, ?_⟩
          rw [executeMove, if_neg hft] at hs'
          dsimp only at hs'
          rw [hgvs] at hs'
          dsimp only at hs'
          simp only [hcan, Bool.not_true, Bool.false_eq_true, if_false] at hs'
          rw [h1, h2, h3] at hs'
          simp only [Option.some_inj] at hs'
          exact hs'.symm

/-- C3 witness: the legal move 2♠→3♠ on `mvState` together with the
rejection characterization at those indices. -/
theorem claim_C3_executeMove_witness :
    (executeMove 5 mvState 0 0 1 = none ↔
      0 = 1 ∨
        ¬ ∃ seq,
          getValidSequence (mvState.tableau.getD 0 []) 0 = some seq ∧
            canMoveToColumn seq (mvState.tableau.getD 1 []) = true) ∧
    (∀ s', executeMove 5 mvState 0 0 1 = some s' →
      ∃ seq,
        getValidSequence (mvState.tableau.getD 0 []) 0 = some seq ∧
          canMoveToColumn seq (mvState.tableau.getD 1 []) = true ∧
          s' = checkAndRemoveCompleteSequences
            { mvState with
              tableau :=
                (mvState.tableau.set 1 (mvState.tableau.getD 1 [] ++ seq)).set
                  0 (flipLast ((mvState.tableau.getD 0 []).take 0)),
              moves := mvState.moves + 1,
              startTime := some (orNow mvState.startTime 5) }) :=
  claim_C3_executeMove 5 mvState 0 0 1 (by decide) (by decide)

/-- Structure of a successful `dealFromStock`: the dealing fold runs over
columns 0..9, `moves` is bumped, and the completion sweep runs. -/
theorem dealFromStock_some (now : Nat) (s s' : GameState)
    (hs : dealFromStock now s = some s') :
    s' = checkAndRemoveCompleteSequences
      { s with
        tableau := ((List.range 10).foldl dealLoop (s.tableau, s.stock)).1,
        stock := ((List.range 10).foldl dealLoop (s.tableau, s.stock)).2,
        moves := s.moves + 1,
        startTime := some (orNow s.startTime now) } := by
  by_cases h0 : s.stock.length = 0
  · rw [dealFromStock, if_pos h0] at hs
    exact absurd hs (by simp)
  · by_cases hany : s.tableau.any (fun col => col.length = 0)
    · rw [dealFromStock, if_neg h0, if_pos hany] at hs
      exact absurd hs (by simp)
    · rw [dealFromStock, if_neg h0, if_neg hany] at hs
      dsimp only at hs
      simp only [Option.some_inj] at hs
      exact hs.symm

/-- Behaviour of the dealing loop over the first `n` column indices, for a
stock of arbitrary length: the first `min n (stock.length)` stock cards are
dealt in FIFO order, one face-up to each corresponding column, and the rest
of the tableau is untouched. -/
theorem dealFold_spec (tab : List (List Card)) (stock : List Card) :
    ∀ n : Nat, n ≤ tab.length →
      ((List.range n).foldl dealLoop (tab, stock)).2 = stock.drop n ∧
        ((List.range n).foldl dealLoop (tab, stock)).1.length = tab.length ∧
        (∀ i, i < n → i < stock.length →
          ((List.range n).foldl dealLoop (tab, stock)).1.getD i [] =
            tab.getD i [] ++
              [{ stock.getD i dummyCard with faceUp := true }]) ∧
        (∀ i, n ≤ i ∨ stock.length ≤ i →
          ((List.range n).foldl dealLoop (tab, stock)).1.getD i [] =
            tab.getD i []) := by
  intro n
  induction n with
  | zero =>
    intro _
    exact ⟨rfl, rfl, fun i hi _ => absurd hi (Nat.not_lt_zero i),
      fun i _ => rfl⟩
  | succ m ih =>
    intro hm1
    obtain ⟨ihs, ihl, ihset, ihold⟩ := ih (by omega)
    rw [List.range_succ, List.foldl_append, List.foldl_cons, List.foldl_nil]
    by_cases hst : m < stock.length
    · have hdrop : stock.drop m =
          stock.getD m dummyCard :: stock.drop (m + 1) := by
        rw [List.getD_eq_getElem?_getD, List.getElem?_eq_getElem hst]
        exact List.drop_eq_getElem_cons hst
      have hstep :
          dealLoop ((List.range m).foldl dealLoop (tab, stock)) m =
            (((List.range m).foldl dealLoop (tab, stock)).1.set m
                (((List.range m).foldl dealLoop (tab, stock)).1.getD m [] ++
                  [{ stock.getD m dummyCard with faceUp := true }]),
              stock.drop (m + 1)) := by
        rw [dealLoop.eq_def]
        dsimp only
        rw [ihs, hdrop]
      rw [hstep]
      refine ⟨rfl, by rw [List.length_set, ihl], ?_, ?_⟩
      · intro i hi hilen
        by_cases him : i = m
        · subst him
          rw [List.getD_eq_getElem?_getD,
            List.getElem?_set_self (by rw [ihl]; omega)]
          rw [ihold i (Or.inl le_rfl)]
          rfl
        · rw [List.getD_eq_getElem?_getD, List.getElem?_set_ne (by omega)]
          rw [← List.getD_eq_getElem?_getD]
          exact ihset i (by omega) hilen
      · intro i hi
        rw [List.getD_eq_getElem?_getD, List.getElem?_set_ne (by omega)]
        rw [← List.getD_eq_getElem?_getD]
        exact ihold i (by omega)
    · have hnil : stock.drop m = [] := List.drop_eq_nil_of_le (by omega)
      have hstep :
          dealLoop ((List.range m).foldl dealLoop (tab, stock)) m =
            (List.range m).foldl dealLoop (tab, stock) := by
        rw [dealLoop.eq_def]
        dsimp only
        rw [ihs, hnil]
        dsimp only
        exact Prod.ext rfl (ihs.trans hnil).symm
      rw [hstep]
      have hd2 : stock.drop (m + 1) = [] := List.drop_eq_nil_of_le (by omega)
      refine ⟨by rw [ihs, hnil, hd2], ihl, ?_, ?_⟩
      · intro i hi hilen
        exact ihset i (by omega) hilen
      · intro i hi
        exact ihold i (by omega)

/-- C4 counterexample: on a state whose stock holds a single card (with all
ten columns non-empty) the deal succeeds, but only column 0 receives a card:
columns 1–9 keep length 1, so the deal does not remove 10 cards nor append
one card to each of the 10 columns. -/
theorem claim_C4_counterexample :
    oneStockState.stock.length = 1 ∧
      (dealFromStock 0 oneStockState).map (fun s => s.tableau.map List.length)
        = some [2, 1, 1, 1, 1, 1, 1, 1, 1, 1] ∧
      (dealFromStock 0 oneStockState).map GameState.moves = some 1 := by
  exact ⟨rfl, rfl, rfl⟩

/-- C4 (amended): for every 10-column state, `dealFromStock` returns `null`
exactly when the stock is empty or some column is empty.  On every success
it pops `min(10, stock.length)` cards FIFO from the stock head (so exactly
10 whenever the stock holds at least 10 cards, as any reachable stock
does), appends one face-up to each of columns `0..min-1` in order (column 0
gets the former stock head), leaves the remaining columns untouched, and
increments `moves` by 1, before the completion sweep. -/
theorem claim_C4_dealFromStock (now : Nat) (s : GameState)
    (hlen : s.tableau.length = 10) :
    (dealFromStock now s = none ↔
      s.stock = [] ∨ ∃ col ∈ s.tableau, col = []) ∧
      ∀ s', dealFromStock now s = some s' →
        ∃ newTab,
          s' = checkAndRemoveCompleteSequences
              { s with
                tableau := newTab,
                stock := s.stock.drop 10,
                moves := s.moves + 1,
                startTime := some (orNow s.startTime now) } ∧
            newTab.length = 10 ∧
            (∀ i, i < 10 → i < s.stock.length →
              newTab.getD i [] =
                s.tableau.getD i [] ++
                  [{ s.stock.getD i dummyCard with faceUp := true }]) ∧
            (∀ i, 10 ≤ i ∨ s.stock.length ≤ i →
              newTab.getD i [] = s.tableau.getD i []) := by
  constructor
  · constructor
    · intro h
      by_cases h0 : s.stock.length = 0
      · left
        exact List.length_eq_zero.mp h0
      · rw [dealFromStock, if_neg h0] at h
        by_cases hany : s.tableau.any (fun col => col.length = 0)
        · rcases List.any_eq_true.mp hany with ⟨col, hmem, hcol⟩
          right
          exact ⟨col, hmem, List.length_eq_zero.mp (of_decide_eq_true hcol)⟩
        · rw [if_neg hany] at h
          exact absurd h (by simp)
    · intro h
      rcases h with h | ⟨col, hmem, hcol⟩
      · rw [dealFromStock, if_pos (by rw [h]; rfl)]
      · by_cases h0 : s.stock.length = 0
        · rw [dealFromStock, if_pos h0]
        · rw [dealFromStock, if_neg h0, if_pos ?_]
          exact List.any_eq_true.mpr ⟨col, hmem, by simp [hcol]⟩
  · intro s' hs
    have hs' := dealFromStock_some now s s' hs
    obtain ⟨hfs, hfl, hfset, hfold⟩ :=
      dealFold_spec s.tableau s.stock 10 (by omega)
    refine ⟨((List.range 10).foldl dealLoop (s.tableau, s.stock)).1,
      ?_, by rw [hfl, hlen], hfset, hfold⟩
    rw [hs', hfs]

/-- C4 witness: a concrete 10-column state (with a 10-card stock, so the
success part is exercised with the full 10-card pop). -/
theorem claim_C4_dealFromStock_witness :
    (dealFromStock 5 mvState = none ↔
      mvState.stock = [] ∨ ∃ col ∈ mvState.tableau, col = []) ∧
      ∃ newTab,
        mvDealt = checkAndRemoveCompleteSequences
            { mvState with
              tableau := newTab,
              stock := mvState.stock.drop 10,
              moves := mvState.moves + 1,
              startTime := some (orNow mvState.startTime 5) } ∧
          newTab.length = 10 ∧
          (∀ i, i < 10 → i < mvState.stock.length →
            newTab.getD i [] =
              mvState.tableau.getD i [] ++
                [{ mvState.stock.getD i dummyCard with faceUp := true }]) ∧
          (∀ i, 10 ≤ i ∨ mvState.stock.length ≤ i →
            newTab.getD i [] = mvState.tableau.getD i []) :=
  ⟨(claim_C4_dealFromStock 5 mvState (by decide)).1,
    (claim_C4_dealFromStock 5 mvState (by decide)).2 mvDealt rfl⟩

/-- A successful `getValidSequence` returns exactly the suffix of the column
from the given start index, which is therefore in range. -/
theorem getValidSequence_some (column : List Card) (startIndex : Nat)
    (seq : List Card) (h : getValidSequence column startIndex = some seq) :
    seq = column.drop startIndex ∧ startIndex < column.length := by
  unfold getValidSequence at h
  by_cases hlt : startIndex < column.length
  · rw [if_pos hlt] at h
    dsimp only at h
    cases hd : column.drop startIndex with
    | nil => rw [hd] at h; exact absurd h (by simp)
    | cons c rest =>
      rw [hd] at h
      dsimp only at h
      by_cases hfu : (!c.faceUp) = true
      · rw [if_pos hfu] at h
        exact absurd h (by simp)
      · rw [if_neg hfu] at h
        by_cases hvs : (!isValidSequence (c :: rest)) = true
        · rw [if_pos hvs] at h
          exact absurd h (by simp)
        · rw [if_neg hvs] at h
          simp only [Option.some_inj] at h
          exact ⟨h.symm, hlt⟩
  · rw [if_neg hlt] at h
    exact absurd h (by simp)

/-- Reading past the end of the tableau yields the empty column. -/
theorem getD_nil_of_le (tab : List (List Card)) (i : Nat)
    (h : tab.length ≤ i) : tab.getD i [] = [] := by
  rw [List.getD_eq_getElem?_getD, List.getElem?_eq_none h]
  rfl

/-- The scanning loop only ever returns the 13-card slice at the returned
start index, and only when that window is valid. -/
theorem hcsLoop_some (column : List Card) :
    ∀ (i : Nat) (p : Nat × List Card), hcsLoop column i = some p →
      p.2 = (column.drop p.1).take 13 ∧ isCompleteWindow p.2 = true := by
  intro i
  induction i with
  | zero =>
    intro p h
    rw [hcsLoop] at h
    split_ifs at h with hw
    simp only [Option.some_inj] at h
    subst h
    exact ⟨rfl, hw⟩
  | succ m ih =>
    intro p h
    rw [hcsLoop] at h
    split_ifs at h with hw
    · simp only [Option.some_inj] at h
      subst h
      exact ⟨rfl, hw⟩
    · exact ih p h

/-- A successful `hasCompleteSequence` returns the 13-card slice at the
returned start index of a column with at least 13 cards. -/
theorem hasCompleteSequence_some (column : List Card) (p : Nat × List Card)
    (h : hasCompleteSequence column = some p) :
    p.2 = (column.drop p.1).take 13 ∧ isCompleteWindow p.2 = true ∧
      13 ≤ column.length := by
  unfold hasCompleteSequence at h
  split_ifs at h with hlen
  obtain ⟨h1, h2⟩ := hcsLoop_some column _ p h
  exact ⟨h1, h2, by omega⟩

/-- Card-key multisets distribute over column concatenation. -/
theorem colKeys_append (l1 l2 : List Card) :
    colKeys (l1 ++ l2) = colKeys l1 + colKeys l2 := by
  unfold colKeys
  rw [List.map_append]
  exact (Multiset.coe_add _ _).symm

/-- Flipping the top card of a column does not change its card keys. -/
theorem colKeys_flipLast (col : List Card) :
    colKeys (flipLast col) = colKeys col := by
  unfold flipLast
  cases h : col.getLast? with
  | none => rfl
  | some top =>
    dsimp only
    split_ifs with hup
    · rfl
    · have hne : col ≠ [] := by
        intro hnil
        rw [hnil] at h
        simp at h
      have hlast : col.getLast hne = top := by
        rw [List.getLast?_eq_getLast_of_ne_nil hne] at h
        exact Option.some_inj.mp h
      conv_rhs => rw [← List.dropLast_concat_getLast hne]
      rw [hlast, colKeys_append, colKeys_append]
      rfl

/-- Replacing one entry of a list of multisets exchanges exactly that
summand in the total. -/
theorem multisetSum_set (L : List (Multiset (String × Suit × Rank))) :
    ∀ (i : Nat), i < L.length →
      ∀ m, (L.set i m).sum + L.getD i 0 = L.sum + m := by
  induction L with
  | nil => intro i hi; simp at hi
  | cons hd tl ih =>
    intro i hi m
    cases i with
    | zero =>
      simp only [List.set_cons_zero, List.sum_cons, List.getD_cons_zero]
      abel
    | succ j =>
      simp only [List.set_cons_succ, List.sum_cons, List.getD_cons_succ]
      have hji : j < tl.length := by simpa using hi
      rw [add_assoc, ih j hji m, ← add_assoc]

/-- Replacing one column exchanges exactly its keys in the tableau total. -/
theorem tabKeys_set (tab : List (List Card)) (i : Nat) (h : i < tab.length)
    (x : List Card) :
    tabKeys (tab.set i x) + colKeys (tab.getD i []) =
      tabKeys tab + colKeys x := by
  unfold tabKeys
  rw [List.map_set]
  have hget : (tab.map colKeys).getD i 0 = colKeys (tab.getD i []) := by
    rw [List.getD_eq_getElem?_getD, List.getD_eq_getElem?_getD,
      List.getElem?_map]
    cases hc : tab[i]? with
    | none => rfl
    | some c => rfl
  rw [← hget]
  exact multisetSum_set _ i (by rw [List.length_map]; exact h) _

/-- Tableau keys distribute over concatenation of column lists. -/
theorem tabKeys_append (t1 t2 : List (List Card)) :
    tabKeys (t1 ++ t2) = tabKeys t1 + tabKeys t2 := by
  unfold tabKeys
  rw [List.map_append, List.sum_append]

/-- One completion-sweep step moves keys between the tableau and the
completed piles without creating or destroying any. -/
theorem sweepStep_keys (tableau completed : List (List Card)) (changed : Bool)
    (col : Nat) :
    tabKeys (sweepStep (tableau, completed, changed) col).1 +
        tabKeys (sweepStep (tableau, completed, changed) col).2.1 =
      tabKeys tableau + tabKeys completed := by
  unfold sweepStep
  dsimp only
  cases h : hasCompleteSequence (tableau.getD col []) with
  | none => rfl
  | some p =>
    obtain ⟨hp2, hw, hlen13⟩ := hasCompleteSequence_some _ p h
    obtain ⟨start, cards⟩ := p
    dsimp only at hp2 hw ⊢
    have hcol : col < tableau.length := by
      by_contra hcol
      rw [getD_nil_of_le tableau col (by omega)] at hlen13
      simp at hlen13
    have e1 := tabKeys_set tableau col hcol
      (flipLast ((tableau.getD col []).take start ++
        (tableau.getD col []).drop (start + 13)))
    rw [colKeys_flipLast, colKeys_append] at e1
    have edecomp : (tableau.getD col []).drop start =
        cards ++ (tableau.getD col []).drop (start + 13) := by
      rw [hp2]
      conv_lhs => rw [← List.take_append_drop 13
        ((tableau.getD col []).drop start)]
      rw [List.drop_drop]
    have e2 : colKeys (tableau.getD col []) =
        colKeys ((tableau.getD col []).take start) + colKeys cards +
          colKeys ((tableau.getD col []).drop (start + 13)) := by
      conv_lhs => rw [← List.take_append_drop start (tableau.getD col []),
        edecomp]
      rw [colKeys_append, colKeys_append, add_assoc]
    have e3 : tabKeys (completed ++ [cards]) =
        tabKeys completed + colKeys cards := by
      rw [tabKeys_append]
      have : tabKeys [cards] = colKeys cards := by
        simp [tabKeys]
      rw [this]
    rw [e3]
    refine Multiset.ext.mpr fun k => ?_
    have c1 := congrArg (Multiset.count k) e1
    have c2 := congrArg (Multiset.count k) e2
    simp only [Multiset.count_add] at c1 c2 ⊢
    omega

/-- The complete sweep fold preserves the keys of tableau plus completed. -/
theorem sweepFold_keys (cols : List Nat) :
    ∀ acc : List (List Card) × List (List Card) × Bool,
      tabKeys (cols.foldl sweepStep acc).1 +
          tabKeys (cols.foldl sweepStep acc).2.1 =
        tabKeys acc.1 + tabKeys acc.2.1 := by
  induction cols with
  | nil => intro acc; rfl
  | cons c rest ih =>
    intro acc
    rw [List.foldl_cons, ih (sweepStep acc c)]
    obtain ⟨t, comp, ch⟩ := acc
    exact sweepStep_keys t comp ch c

/-- The completion sweep preserves the full key multiset of the state. -/
theorem sweep_keys (state : GameState) :
    stateKeys (checkAndRemoveCompleteSequences state) = stateKeys state := by
  unfold checkAndRemoveCompleteSequences
  dsimp only
  split_ifs with hch
  · rfl
  · unfold stateKeys
    dsimp only
    have hf := sweepFold_keys (List.range 10)
      (state.tableau, state.completed, false)
    refine Multiset.ext.mpr fun k => ?_
    have c1 := congrArg (Multiset.count k) hf
    simp only [Multiset.count_add] at c1 ⊢
    omega

/-- One sweep step preserves the number of tableau columns. -/
theorem sweepStep_length (acc : List (List Card) × List (List Card) × Bool)
    (col : Nat) : (sweepStep acc col).1.length = acc.1.length := by
  unfold sweepStep
  dsimp only
  cases h : hasCompleteSequence (acc.1.getD col []) with
  | none => rfl
  | some p =>
    obtain ⟨start, cards⟩ := p
    simp [List.length_set]

/-- The sweep fold preserves the number of tableau columns. -/
theorem sweepFold_length (cols : List Nat) :
    ∀ acc : List (List Card) × List (List Card) × Bool,
      (cols.foldl sweepStep acc).1.length = acc.1.length := by
  induction cols with
  | nil => intro acc; rfl
  | cons c rest ih =>
    intro acc
    rw [List.foldl_cons, ih (sweepStep acc c), sweepStep_length]

/-- The completion sweep preserves the number of tableau columns. -/
theorem sweep_tableau_length (state : GameState) :
    (checkAndRemoveCompleteSequences state).tableau.length =
      state.tableau.length := by
  unfold checkAndRemoveCompleteSequences
  dsimp only
  split_ifs with hch
  · rfl
  · dsimp only
    exact sweepFold_length (List.range 10)
      (state.tableau, state.completed, false)

/-- Structure of a successful `executeMove`: the validated suffix is moved
from the (necessarily in-range) source column onto the destination, the
newly exposed source top card is flipped, `moves` is bumped, and the
completion sweep runs. -/
theorem executeMove_some (now : Nat) (s : GameState) (f i t : Nat)
    (s' : GameState) (hs : executeMove now s f i t = some s') :
    ∃ seq, getValidSequence (s.tableau.getD f []) i = some seq ∧
      canMoveToColumn seq (s.tableau.getD t []) = true ∧
      f ≠ t ∧ f < s.tableau.length ∧
      s' = checkAndRemoveCompleteSequences
        { s with
          tableau := (s.tableau.set t (s.tableau.getD t [] ++ seq)).set f
            (flipLast ((s.tableau.getD f []).take i)),
          moves := s.moves + 1,
          startTime := some (orNow s.startTime now) } := by
  by_cases hft : f = t
  · rw [executeMove, if_pos hft] at hs
    exact absurd hs (by simp)
  · cases hgvs : getValidSequence (s.tableau.getD f []) i with
    | none =>
      rw [executeMove, if_neg hft] at hs
      dsimp only at hs
      rw [hgvs] at hs
      exact absurd hs (by simp)
    | some seq =>
      have hf : f < s.tableau.length := by
        by_contra hof
        rw [getD_nil_of_le s.tableau f (by omega)] at hgvs
        have hnone : getValidSequence ([] : List Card) i = none := by
          simp [getValidSequence]
        rw [hnone] at hgvs
        exact absurd hgvs (by simp)
      cases hcan : canMoveToColumn seq (s.tableau.getD t []) with
      | false =>
        rw [executeMove, if_neg hft] at hs
        dsimp only at hs
        rw [hgvs] at hs
        dsimp only at hs
        rw [hcan] at hs
        simp at hs
      | true =>
        have h1 : (s.tableau.set f
            ((s.tableau.getD f []).take i)).getD t [] =
            s.tableau.getD t [] := by
          simp only [List.getD_eq_getElem?_getD]
          rw [List.getElem?_set_ne hft]
        have h2 : ((s.tableau.set f
              ((s.tableau.getD f []).take i)).set t
              (s.tableau.getD t [] ++ seq)).getD f [] =
            (s.tableau.getD f []).take i := by
          simp only [List.getD_eq_getElem?_getD]
          rw [List.getElem?_set_ne (Ne.symm hft), List.getElem?_set_self hf]
          rfl
        have h3 : ((s.tableau.set f
              ((s.tableau.getD f []).take i)).set t
              (s.tableau.getD t [] ++ seq)).set f
              (flipLast ((s.tableau.getD f []).take i)) =
            (s.tableau.set t (s.tableau.getD t [] ++ seq)).set f
              (flipLast ((s.tableau.getD f []).take i)) := by
          rw [List.set_comm _ _ _ hft, List.set_set]
        refine ⟨seq, rfl, hcan, hft, hf, ?_⟩
        rw [executeMove, if_neg hft] at hs
        dsimp only at hs
        rw [hgvs] at hs
        dsimp only at hs
        simp only [hcan, Bool.not_true, Bool.false_eq_true, if_false] at hs
        rw [h1, h2, h3] at hs
        simp only [Option.some_inj] at hs
        exact hs.symm

/-- A successful move preserves the key multiset of the state. -/
theorem move_keys (now : Nat) (s s' : GameState) (f i t : Nat)
    (ht : t < s.tableau.length)
    (hs : executeMove now s f i t = some s') :
    stateKeys s' = stateKeys s := by
  obtain ⟨seq, hgvs, hcan, hft, hf, hs'⟩ := executeMove_some now s f i t s' hs
  obtain ⟨hseq, hi⟩ := getValidSequence_some _ _ _ hgvs
  rw [hs', sweep_keys]
  unfold stateKeys
  dsimp only
  have e1 := tabKeys_set s.tableau t ht (s.tableau.getD t [] ++ seq)
  have hlen1 : f < (s.tableau.set t (s.tableau.getD t [] ++ seq)).length := by
    rw [List.length_set]
    exact hf
  have e2 := tabKeys_set (s.tableau.set t (s.tableau.getD t [] ++ seq)) f
    hlen1 (flipLast ((s.tableau.getD f []).take i))
  have hgd : (s.tableau.set t (s.tableau.getD t [] ++ seq)).getD f [] =
      s.tableau.getD f [] := by
    simp only [List.getD_eq_getElem?_getD]
    rw [List.getElem?_set_ne (Ne.symm hft)]
  rw [hgd, colKeys_flipLast] at e2
  have e3 : colKeys (s.tableau.getD f []) =
      colKeys ((s.tableau.getD f []).take i) + colKeys seq := by
    conv_lhs => rw [← List.take_append_drop i (s.tableau.getD f []), ← hseq]
    rw [colKeys_append]
  have e4 := colKeys_append (s.tableau.getD t []) seq
  refine Multiset.ext.mpr fun k => ?_
  have c1 := congrArg (Multiset.count k) e1
  have c2 := congrArg (Multiset.count k) e2
  have c3 := congrArg (Multiset.count k) e3
  have c4 := congrArg (Multiset.count k) e4
  simp only [Multiset.count_add] at c1 c2 c3 c4 ⊢
  omega

/-- A successful move preserves the number of tableau columns. -/
theorem move_tableau_length (now : Nat) (s s' : GameState) (f i t : Nat)
    (hs : executeMove now s f i t = some s') :
    s'.tableau.length = s.tableau.length := by
  obtain ⟨seq, _, _, _, _, hs'⟩ := executeMove_some now s f i t s' hs
  rw [hs', sweep_tableau_length]
  dsimp only
  rw [List.length_set, List.length_set]

/-- The dealing fold preserves the keys of tableau plus stock, provided all
dealt column indices are in range. -/
theorem dealFold_keys (cols : List Nat) :
    ∀ (tab : List (List Card)) (stock : List Card),
      (∀ c ∈ cols, c < tab.length) →
      tabKeys (cols.foldl dealLoop (tab, stock)).1 +
          colKeys (cols.foldl dealLoop (tab, stock)).2 =
        tabKeys tab + colKeys stock := by
  induction cols with
  | nil => intro tab stock _; rfl
  | cons c rest ih =>
    intro tab stock h
    rw [List.foldl_cons]
    cases stock with
    | nil =>
      have hstep : dealLoop (tab, ([] : List Card)) c = (tab, []) := rfl
      rw [hstep, ih tab [] (fun x hx => h x (List.mem_cons_of_mem _ hx))]
    | cons card restStock =>
      have hstep : dealLoop (tab, card :: restStock) c =
          (tab.set c (tab.getD c [] ++ [{ card with faceUp := true }]),
            restStock) := rfl
      rw [hstep, ih _ _ (fun x hx => by
        rw [List.length_set]
        exact h x (List.mem_cons_of_mem _ hx))]
      have hc : c < tab.length := h c (List.mem_cons_self _ _)
      have e1 := tabKeys_set tab c hc
        (tab.getD c [] ++ [{ card with faceUp := true }])
      rw [colKeys_append] at e1
      have e2 : colKeys (card :: restStock) =
          colKeys [card] + colKeys restStock := by
        rw [show (card :: restStock) = [card] ++ restStock from rfl,
          colKeys_append]
      have e3 : colKeys [{ card with faceUp := true }] = colKeys [card] := rfl
      refine Multiset.ext.mpr fun k => ?_
      have c1 := congrArg (Multiset.count k) e1
      have c2 := congrArg (Multiset.count k) e2
      have c3 := congrArg (Multiset.count k) e3
      simp only [Multiset.count_add] at c1 c2 c3 ⊢
      omega

/-- The dealing fold preserves the number of tableau columns. -/
theorem dealFold_length (cols : List Nat) :
    ∀ acc : List (List Card) × List Card,
      (cols.foldl dealLoop acc).1.length = acc.1.length := by
  induction cols with
  | nil => intro acc; rfl
  | cons c rest ih =>
    intro acc
    rw [List.foldl_cons, ih (dealLoop acc c)]
    obtain ⟨tab, stock⟩ := acc
    cases stock with
    | nil => rfl
    | cons card restStock => simp [dealLoop, List.length_set]

/-- A successful deal preserves the key multiset of a 10-column state. -/
theorem deal_keys (now : Nat) (s s' : GameState)
    (hlen : s.tableau.length = 10) (hs : dealFromStock now s = some s') :
    stateKeys s' = stateKeys s := by
  rw [dealFromStock_some now s s' hs, sweep_keys]
  unfold stateKeys
  dsimp only
  have hf := dealFold_keys (List.range 10) s.tableau s.stock (by
    intro c hc
    rw [hlen]
    simpa using hc)
  refine Multiset.ext.mpr fun k => ?_
  have c1 := congrArg (Multiset.count k) hf
  simp only [Multiset.count_add] at c1 ⊢
  omega

/-- A successful deal preserves the number of tableau columns. -/
theorem deal_tableau_length (now : Nat) (s s' : GameState)
    (hs : dealFromStock now s = some s') :
    s'.tableau.length = s.tableau.length := by
  rw [dealFromStock_some now s s' hs, sweep_tableau_length]
  dsimp only
  rw [dealFold_length]

/-- The key multiset of one column counts its cards. -/
theorem card_colKeys (col : List Card) :
    Multiset.card (colKeys col) = col.length := by
  unfold colKeys
  rw [Multiset.coe_card, List.length_map]

/-- The key multiset of a tableau counts all its cards. -/
theorem card_tabKeys (tab : List (List Card)) :
    Multiset.card (tabKeys tab) = (tab.map List.length).sum := by
  induction tab with
  | nil => rfl
  | cons c rest ih =>
    unfold tabKeys at ih ⊢
    rw [List.map_cons, List.sum_cons, Multiset.card_add, card_colKeys, ih,
      List.map_cons, List.sum_cons]

/-- Total number of cards dealt into the tableau, given a big enough deck. -/
theorem dealTableauGo_lengths (cols : List Nat) :
    ∀ deck : List Card,
      (cols.map fun c => if c < 4 then 6 else 5).sum ≤ deck.length →
      ((dealTableauGo cols deck).map List.length).sum =
        (cols.map fun c => if c < 4 then 6 else 5).sum := by
  induction cols with
  | nil => intro deck _; rfl
  | cons col rest ih =>
    intro deck h
    rw [List.map_cons, List.sum_cons] at h
    have hsum : (0:Nat) ≤ (rest.map fun c => if c < 4 then 6 else 5).sum :=
      Nat.zero_le _
    rw [dealTableauGo, List.map_cons, List.sum_cons, List.map_cons,
      List.sum_cons, dealMark_length, List.length_take]
    have htake : min (if col < 4 then 6 else 5) deck.length =
        (if col < 4 then 6 else 5) := by omega
    rw [htake, ih (deck.drop (if col < 4 then 6 else 5)) (by
      rw [List.length_drop]
      omega)]

/-- A fresh game has ten tableau columns. -/
theorem initializeGame_tableau_length (rand : Nat → Nat)
    (settings : GameSettings) :
    (initializeGame rand settings).tableau.length = 10 := by
  show (dealTableau _).length = 10
  rw [dealTableau, dealTableauGo_length]
  rfl

/-- A fresh game holds exactly 104 cards across tableau, stock and
completed piles. -/
theorem initializeGame_card (rand : Nat → Nat) (settings : GameSettings) :
    Multiset.card (stateKeys (initializeGame rand settings)) = 104 := by
  have hdeck :
      (shuffleDeck rand (createDeck settings.suitCount)).length = 104 := by
    rw [shuffleDeck_length, createDeck_length]
  unfold stateKeys
  rw [Multiset.card_add, Multiset.card_add]
  have h1 : Multiset.card (tabKeys (initializeGame rand settings).tableau)
      = 54 := by
    rw [card_tabKeys]
    show ((dealTableau _).map List.length).sum = 54
    rw [dealTableau, dealTableauGo_lengths _ _ (by rw [hdeck]; decide)]
    decide
  have h2 : Multiset.card (colKeys (initializeGame rand settings).stock)
      = 50 := by
    rw [card_colKeys]
    show (((shuffleDeck rand (createDeck settings.suitCount)).drop 54).map
      _).length = 50
    rw [List.length_map, List.length_drop, hdeck]
  have h3 : tabKeys (initializeGame rand settings).completed = 0 := rfl
  rw [h1, h2, h3]
  rfl

/-- Every reachable state keeps ten tableau columns and exactly 104 cards. -/
theorem reach_invariant (s : GameState) (h : Reachable s) :
    s.tableau.length = 10 ∧ Multiset.card (stateKeys s) = 104 := by
  induction h with
  | init rand settings =>
    exact ⟨initializeGame_tableau_length rand settings,
      initializeGame_card rand settings⟩
  | move s s' now fromCol cardIndex toCol htc hr hm ih =>
    refine ⟨?_, ?_⟩
    · rw [move_tableau_length now s s' fromCol cardIndex toCol hm]
      exact ih.1
    · rw [move_keys now s s' fromCol cardIndex toCol
        (by rw [ih.1]; exact htc) hm]
      exact ih.2
  | deal s s' now hr hd ih =>
    exact ⟨by rw [deal_tableau_length now s s' hd]; exact ih.1,
      by rw [deal_keys now s s' ih.1 hd]; exact ih.2⟩
  | sweep s hr ih =>
    exact ⟨by rw [sweep_tableau_length]; exact ih.1,
      by rw [sweep_keys]; exact ih.2⟩

/-- C10 (implicit): card conservation.  A successful `executeMove` (to an
in-range destination), a successful `dealFromStock` (on a 10-column state)
and every `checkAndRemoveCompleteSequences` all preserve the multiset of
`(id, suit, rank)` triples over tableau, stock and completed piles; and
every state reachable from `initializeGame` by these operations holds
exactly 104 cards. -/
theorem claim_C10_conservation (now1 now2 : Nat) (s1 s1' : GameState)
    (f i t : Nat) (ht : t < s1.tableau.length)
    (hm : executeMove now1 s1 f i t = some s1')
    (s2 s2' : GameState) (hlen2 : s2.tableau.length = 10)
    (hd : dealFromStock now2 s2 = some s2')
    (s3 : GameState) (u : GameState) (hu : Reachable u) :
    stateKeys s1' = stateKeys s1 ∧
      stateKeys s2' = stateKeys s2 ∧
      stateKeys (checkAndRemoveCompleteSequences s3) = stateKeys s3 ∧
      Multiset.card (stateKeys u) = 104 :=
  ⟨move_keys now1 s1 s1' f i t ht hm,
    deal_keys now2 s2 s2' hlen2 hd,
    sweep_keys s3,
    (reach_invariant u hu).2⟩

/-- C10 witness: conservation checked on the concrete `mvState` move and
deal, a concrete sweep, and a freshly initialized game. -/
theorem claim_C10_conservation_witness :
    stateKeys mvMoved = stateKeys mvState ∧
      stateKeys mvDealt = stateKeys mvState ∧
      stateKeys (checkAndRemoveCompleteSequences mvState) =
        stateKeys mvState ∧
      Multiset.card (stateKeys (initializeGame (fun _ => 0)
        DEFAULT_SETTINGS)) = 104 :=
  claim_C10_conservation 5 5 mvState mvMoved 0 0 1 (by decide) rfl
    mvState mvDealt (by decide) rfl mvState
    (initializeGame (fun _ => 0) DEFAULT_SETTINGS)
    (Reachable.init (fun _ => 0) DEFAULT_SETTINGS)

/-- C2 (code bug): `hasCompleteSequence` accepts K♠..2♠ followed by A♥ as a
"complete sequence" although the final ace's suit differs — the inner loop
never checks the suit of the 13th card, contradicting the source's own
"Must be same suit" comment; moreover when two valid windows exist (a
26-card double run) it returns the highest start index (13), not the lowest
(0) as the claim's "deepest window" wording says. -/
theorem claim_C2_hasCompleteSequence :
    (hasCompleteSequence mixedCol = some (0, mixedCol) ∧
        (mixedCol.getD 12 dummyCard).suit ≠ (mixedCol.getD 0 dummyCard).suit) ∧
      (hasCompleteSequence doubleRun).map Prod.fst = some 13 := by
  refine ⟨⟨?_, by decide⟩, ?_⟩ <;> rfl

end FrostySpider
